import Mathlib

/-!
# Verification of the NTAG-424 DNA secure-messaging driver

Shallow embedding of the host-side NTAG-424 driver (TypeScript sources
`src/index.ts`, `src/services/ntag424.ts`, `src/utils/crypto.ts`) in Lean 4,
together with proofs and refutations of the specified properties.

Bytes are modelled as `Nat` values below 256; byte buffers as `List Nat`.
JavaScript 32-bit bitwise arithmetic is modelled as `Nat` arithmetic
modulo `2 ^ 32` (the bit patterns coincide on the values involved).

The driver delegates AES-128 (CBC / single-block-ECB) and AES-CMAC to
external libraries (`react-native-quick-crypto`, `node-aes-cmac`); those
primitives are embedded concretely as the standard FIPS-197 AES-128 cipher
and the RFC 4493 CMAC, both defined over byte lists.
-/

namespace Ntag424

/-! ## Byte-level helpers -/

/-- Every element of the list is a byte (i.e. `< 256`). -/
def BytesLt (l : List Nat) : Prop := ∀ b ∈ l, b < 256

instance : DecidablePred BytesLt := fun l =>
  decidable_of_iff (∀ b ∈ l, b < 256) Iff.rfl

/-- Pointwise XOR of two byte lists (truncates to the shorter one). -/
def zipXor (a b : List Nat) : List Nat := List.zipWith (· ^^^ ·) a b

/-- A list of `n` zero bytes (`Buffer.alloc(n)`). -/
def zeros (n : Nat) : List Nat := List.replicate n 0

/-! ## AES-128 (FIPS-197), the block cipher used by the driver's crypto
libraries -/

/-- The AES S-box. -/
def sboxTable : List Nat := [
  0x63, 0x7c, 0x77, 0x7b, 0xf2, 0x6b, 0x6f, 0xc5, 0x30, 0x01, 0x67, 0x2b, 0xfe, 0xd7, 0xab, 0x76,
  0xca, 0x82, 0xc9, 0x7d, 0xfa, 0x59, 0x47, 0xf0, 0xad, 0xd4, 0xa2, 0xaf, 0x9c, 0xa4, 0x72, 0xc0,
  0xb7, 0xfd, 0x93, 0x26, 0x36, 0x3f, 0xf7, 0xcc, 0x34, 0xa5, 0xe5, 0xf1, 0x71, 0xd8, 0x31, 0x15,
  0x04, 0xc7, 0x23, 0xc3, 0x18, 0x96, 0x05, 0x9a, 0x07, 0x12, 0x80, 0xe2, 0xeb, 0x27, 0xb2, 0x75,
  0x09, 0x83, 0x2c, 0x1a, 0x1b, 0x6e, 0x5a, 0xa0, 0x52, 0x3b, 0xd6, 0xb3, 0x29, 0xe3, 0x2f, 0x84,
  0x53, 0xd1, 0x00, 0xed, 0x20, 0xfc, 0xb1, 0x5b, 0x6a, 0xcb, 0xbe, 0x39, 0x4a, 0x4c, 0x58, 0xcf,
  0xd0, 0xef, 0xaa, 0xfb, 0x43, 0x4d, 0x33, 0x85, 0x45, 0xf9, 0x02, 0x7f, 0x50, 0x3c, 0x9f, 0xa8,
  0x51, 0xa3, 0x40, 0x8f, 0x92, 0x9d, 0x38, 0xf5, 0xbc, 0xb6, 0xda, 0x21, 0x10, 0xff, 0xf3, 0xd2,
  0xcd, 0x0c, 0x13, 0xec, 0x5f, 0x97, 0x44, 0x17, 0xc4, 0xa7, 0x7e, 0x3d, 0x64, 0x5d, 0x19, 0x73,
  0x60, 0x81, 0x4f, 0xdc, 0x22, 0x2a, 0x90, 0x88, 0x46, 0xee, 0xb8, 0x14, 0xde, 0x5e, 0x0b, 0xdb,
  0xe0, 0x32, 0x3a, 0x0a, 0x49, 0x06, 0x24, 0x5c, 0xc2, 0xd3, 0xac, 0x62, 0x91, 0x95, 0xe4, 0x79,
  0xe7, 0xc8, 0x37, 0x6d, 0x8d, 0xd5, 0x4e, 0xa9, 0x6c, 0x56, 0xf4, 0xea, 0x65, 0x7a, 0xae, 0x08,
  0xba, 0x78, 0x25, 0x2e, 0x1c, 0xa6, 0xb4, 0xc6, 0xe8, 0xdd, 0x74, 0x1f, 0x4b, 0xbd, 0x8b, 0x8a,
  0x70, 0x3e, 0xb5, 0x66, 0x48, 0x03, 0xf6, 0x0e, 0x61, 0x35, 0x57, 0xb9, 0x86, 0xc1, 0x1d, 0x9e,
  0xe1, 0xf8, 0x98, 0x11, 0x69, 0xd9, 0x8e, 0x94, 0x9b, 0x1e, 0x87, 0xe9, 0xce, 0x55, 0x28, 0xdf,
  0x8c, 0xa1, 0x89, 0x0d, 0xbf, 0xe6, 0x42, 0x68, 0x41, 0x99, 0x2d, 0x0f, 0xb0, 0x54, 0xbb, 0x16]

/-- The inverse AES S-box. -/
def invSboxTable : List Nat := [
  0x52, 0x09, 0x6a, 0xd5, 0x30, 0x36, 0xa5, 0x38, 0xbf, 0x40, 0xa3, 0x9e, 0x81, 0xf3, 0xd7, 0xfb,
  0x7c, 0xe3, 0x39, 0x82, 0x9b, 0x2f, 0xff, 0x87, 0x34, 0x8e, 0x43, 0x44, 0xc4, 0xde, 0xe9, 0xcb,
  0x54, 0x7b, 0x94, 0x32, 0xa6, 0xc2, 0x23, 0x3d, 0xee, 0x4c, 0x95, 0x0b, 0x42, 0xfa, 0xc3, 0x4e,
  0x08, 0x2e, 0xa1, 0x66, 0x28, 0xd9, 0x24, 0xb2, 0x76, 0x5b, 0xa2, 0x49, 0x6d, 0x8b, 0xd1, 0x25,
  0x72, 0xf8, 0xf6, 0x64, 0x86, 0x68, 0x98, 0x16, 0xd4, 0xa4, 0x5c, 0xcc, 0x5d, 0x65, 0xb6, 0x92,
  0x6c, 0x70, 0x48, 0x50, 0xfd, 0xed, 0xb9, 0xda, 0x5e, 0x15, 0x46, 0x57, 0xa7, 0x8d, 0x9d, 0x84,
  0x90, 0xd8, 0xab, 0x00, 0x8c, 0xbc, 0xd3, 0x0a, 0xf7, 0xe4, 0x58, 0x05, 0xb8, 0xb3, 0x45, 0x06,
  0xd0, 0x2c, 0x1e, 0x8f, 0xca, 0x3f, 0x0f, 0x02, 0xc1, 0xaf, 0xbd, 0x03, 0x01, 0x13, 0x8a, 0x6b,
  0x3a, 0x91, 0x11, 0x41, 0x4f, 0x67, 0xdc, 0xea, 0x97, 0xf2, 0xcf, 0xce, 0xf0, 0xb4, 0xe6, 0x73,
  0x96, 0xac, 0x74, 0x22, 0xe7, 0xad, 0x35, 0x85, 0xe2, 0xf9, 0x37, 0xe8, 0x1c, 0x75, 0xdf, 0x6e,
  0x47, 0xf1, 0x1a, 0x71, 0x1d, 0x29, 0xc5, 0x89, 0x6f, 0xb7, 0x62, 0x0e, 0xaa, 0x18, 0xbe, 0x1b,
  0xfc, 0x56, 0x3e, 0x4b, 0xc6, 0xd2, 0x79, 0x20, 0x9a, 0xdb, 0xc0, 0xfe, 0x78, 0xcd, 0x5a, 0xf4,
  0x1f, 0xdd, 0xa8, 0x33, 0x88, 0x07, 0xc7, 0x31, 0xb1, 0x12, 0x10, 0x59, 0x27, 0x80, 0xec, 0x5f,
  0x60, 0x51, 0x7f, 0xa9, 0x19, 0xb5, 0x4a, 0x0d, 0x2d, 0xe5, 0x7a, 0x9f, 0x93, 0xc9, 0x9c, 0xef,
  0xa0, 0xe0, 0x3b, 0x4d, 0xae, 0x2a, 0xf5, 0xb0, 0xc8, 0xeb, 0xbb, 0x3c, 0x83, 0x53, 0x99, 0x61,
  0x17, 0x2b, 0x04, 0x7e, 0xba, 0x77, 0xd6, 0x26, 0xe1, 0x69, 0x14, 0x63, 0x55, 0x21, 0x0c, 0x7d]

def sbox (b : Nat) : Nat := sboxTable.getD b 0

def invSbox (b : Nat) : Nat := invSboxTable.getD b 0

/-- Multiplication by `x` in GF(2^8) mod `x^8 + x^4 + x^3 + x + 1`.
For `b < 256` this equals the usual `xtime`: shifting left and, when bit 7
was set, XOR-ing the reduction polynomial (0x11b clears the overflow bit
and folds in 0x1b). -/
def xtime (b : Nat) : Nat := if b.testBit 7 then (b <<< 1) ^^^ 0x11b else b <<< 1

/-- GF(2^8) multiplication by the constant 2 (MixColumns). -/
def g2 (b : Nat) : Nat := xtime b

/-- GF(2^8) multiplication by 3. -/
def g3 (b : Nat) : Nat := xtime b ^^^ b

/-- GF(2^8) multiplication by 9 (InvMixColumns). -/
def g9 (b : Nat) : Nat := xtime (xtime (xtime b)) ^^^ b

/-- GF(2^8) multiplication by 11. -/
def g11 (b : Nat) : Nat := xtime (xtime (xtime b)) ^^^ xtime b ^^^ b

/-- GF(2^8) multiplication by 13. -/
def g13 (b : Nat) : Nat := xtime (xtime (xtime b)) ^^^ xtime (xtime b) ^^^ b

/-- GF(2^8) multiplication by 14. -/
def g14 (b : Nat) : Nat := xtime (xtime (xtime b)) ^^^ xtime (xtime b) ^^^ xtime b

/-- SubBytes on a flat 16-byte state (byte `i` is state row `i % 4`,
column `i / 4`, as in FIPS-197). -/
def subBytesL (s : List Nat) : List Nat := s.map sbox

def invSubBytesL (s : List Nat) : List Nat := s.map invSbox

/-- ShiftRows on the flat state: row `r` rotates left by `r`. -/
def shiftRowsL : List Nat → List Nat
  | [b0, b1, b2, b3, b4, b5, b6, b7, b8, b9, b10, b11, b12, b13, b14, b15] =>
    [b0, b5, b10, b15, b4, b9, b14, b3, b8, b13, b2, b7, b12, b1, b6, b11]
  | l => l

def invShiftRowsL : List Nat → List Nat
  | [b0, b1, b2, b3, b4, b5, b6, b7, b8, b9, b10, b11, b12, b13, b14, b15] =>
    [b0, b13, b10, b7, b4, b1, b14, b11, b8, b5, b2, b15, b12, b9, b6, b3]
  | l => l

/-- MixColumns on one 4-byte column. -/
def mixCol (a b c d : Nat) : List Nat :=
  [g2 a ^^^ g3 b ^^^ c ^^^ d,
   a ^^^ g2 b ^^^ g3 c ^^^ d,
   a ^^^ b ^^^ g2 c ^^^ g3 d,
   g3 a ^^^ b ^^^ c ^^^ g2 d]

def invMixCol (a b c d : Nat) : List Nat :=
  [g14 a ^^^ g11 b ^^^ g13 c ^^^ g9 d,
   g9 a ^^^ g14 b ^^^ g11 c ^^^ g13 d,
   g13 a ^^^ g9 b ^^^ g14 c ^^^ g11 d,
   g11 a ^^^ g13 b ^^^ g9 c ^^^ g14 d]

def mixColumnsL : List Nat → List Nat
  | a :: b :: c :: d :: rest => mixCol a b c d ++ mixColumnsL rest
  | l => l

def invMixColumnsL : List Nat → List Nat
  | a :: b :: c :: d :: rest => invMixCol a b c d ++ invMixColumnsL rest
  | l => l

/-- AddRoundKey: pointwise XOR with the 16-byte round key. -/
def addRoundKey (k s : List Nat) : List Nat := zipXor s k

/-- Key-expansion round constants. -/
def rconTable : List Nat := [0x01, 0x02, 0x04, 0x08, 0x10, 0x20, 0x40, 0x80, 0x1b, 0x36]

def rotWordBytes : List Nat → List Nat
  | [a, b, c, d] => [b, c, d, a]
  | l => l

def subWordBytes (w : List Nat) : List Nat := w.map sbox

/-- One key-expansion step: given the running reversed list of words
(most recent first) and the index `i` of the word to produce. -/
def ksStep (i : Nat) (acc : List (List Nat)) : List (List Nat) :=
  let wprev1 := acc.getD 0 []
  let wprev4 := acc.getD 3 []
  let w :=
    if i % 4 == 0 then
      zipXor wprev4
        (zipXor (subWordBytes (rotWordBytes wprev1)) [rconTable.getD (i / 4 - 1) 0, 0, 0, 0])
    else zipXor wprev4 wprev1
  w :: acc

def ksRun : Nat → Nat → List (List Nat) → List (List Nat)
  | 0, _, acc => acc
  | fuel + 1, i, acc => ksRun fuel (i + 1) (ksStep i acc)

/-- Group the 44 expansion words into 11 round keys of 16 bytes. -/
def groupRoundKeys : List (List Nat) → List (List Nat)
  | w0 :: w1 :: w2 :: w3 :: rest => (w0 ++ w1 ++ w2 ++ w3) :: groupRoundKeys rest
  | _ => []

/-- AES-128 key expansion: 11 round keys of 16 bytes each. -/
def expandKey (key : List Nat) : List (List Nat) :=
  let w0 := key.take 4
  let w1 := (key.drop 4).take 4
  let w2 := (key.drop 8).take 4
  let w3 := key.drop 12
  groupRoundKeys ((ksRun 40 4 [w3, w2, w1, w0]).reverse)

/-- The 9 middle rounds plus the final round, driven by the list of
remaining round keys. -/
def encRounds : List (List Nat) → List Nat → List Nat
  | [], s => s
  | [k], s => addRoundKey k (shiftRowsL (subBytesL s))
  | k :: ks, s => encRounds ks (addRoundKey k (mixColumnsL (shiftRowsL (subBytesL s))))

/-- AES-128 block encryption (FIPS-197 Cipher). -/
def encryptBlock (key block : List Nat) : List Nat :=
  match expandKey key with
  | [] => block
  | k0 :: ks => encRounds ks (addRoundKey k0 block)

/-- Inverse of `encRounds`: unwinds the rounds in reverse order. Extensionally
this is the FIPS-197 InvCipher round structure (InvShiftRows and InvSubBytes
commute, both being bytewise/positional). -/
def decRounds : List (List Nat) → List Nat → List Nat
  | [], s => s
  | [k], s => invSubBytesL (invShiftRowsL (addRoundKey k s))
  | k :: ks, s => invSubBytesL (invShiftRowsL (invMixColumnsL (addRoundKey k (decRounds ks s))))

/-- AES-128 block decryption. -/
def decryptBlock (key block : List Nat) : List Nat :=
  match expandKey key with
  | [] => block
  | k0 :: ks => addRoundKey k0 (decRounds ks block)

/-! ## CBC mode -/

/-- Split a byte list into 16-byte chunks (the last chunk may be short).
Defined by structural recursion (16 elements at a time) so that it
computes by kernel reduction. -/
def chunks16 : List Nat → List (List Nat)
  | [] => []
  | b0 :: b1 :: b2 :: b3 :: b4 :: b5 :: b6 :: b7 :: b8 :: b9 :: b10 :: b11 :: b12 :: b13 :: b14 :: b15 :: rest => [b0, b1, b2, b3, b4, b5, b6, b7, b8, b9, b10, b11, b12, b13, b14, b15] :: chunks16 rest
  | l => [l]

/-- CBC encryption over a list of 16-byte blocks. -/
def cbcEncBlocks (key : List Nat) : List Nat → List (List Nat) → List (List Nat)
  | _, [] => []
  | iv, b :: bs =>
    let c := encryptBlock key (zipXor b iv)
    c :: cbcEncBlocks key c bs

/-- CBC decryption over a list of 16-byte blocks. -/
def cbcDecBlocks (key : List Nat) : List Nat → List (List Nat) → List (List Nat)
  | _, [] => []
  | iv, c :: cs => zipXor (decryptBlock key c) iv :: cbcDecBlocks key c cs

/-- `aesCbcEncrypt(data, iv, key).encrypted` from `src/utils/crypto.ts`:
the node cipher's `update` emits only the whole 16-byte blocks of `data`
(the discarded `final()` would hold the auto-padding block). -/
def aesCbcEncrypt (data iv key : List Nat) : List Nat :=
  (cbcEncBlocks key iv (chunks16 (data.take (16 * (data.length / 16))))).flatten

/-- Core of `aesCbcDecrypt` on well-formed input. -/
def cbcDecryptRaw (data iv key : List Nat) : List Nat :=
  (cbcDecBlocks key iv (chunks16 data)).flatten

/-- Failures surfaced by the driver; string `Error`s are distinguished by
their origin. -/
inductive NtagFailure
  /-- `NtagError(command, statusWord)` from `src/utils/error.ts`. -/
  | statusWord (command : List Nat) (sw : List Nat)
  /-- `Error('Response mac verification failed')`. -/
  | macMismatch
  /-- `Error('Please authenticate first to use this command')`. -/
  | notAuthenticated
  /-- An exception thrown by the node crypto layer
  (bad key/iv size, or non-multiple-of-16 input to an unpadded decipher). -/
  | cryptoError
  /-- `Buffer.alloc` with a negative size (RangeError). -/
  | allocNegative
  /-- An argument-validation `Error` thrown by the driver itself. -/
  | invalidArgument (msg : String)
  /-- The transport itself failed (no response). -/
  | transport
  deriving DecidableEq, Repr

deriving instance DecidableEq for Except

/-- `aesCbcDecrypt(data, iv, key)` from `src/utils/crypto.ts`: node's
`createDecipheriv` demands a 16-byte key and iv, and with auto-padding
disabled `final()` throws unless `data` is a whole number of blocks. -/
def aesCbcDecryptE (data iv key : List Nat) : Except NtagFailure (List Nat) :=
  if key.length = 16 ∧ iv.length = 16 ∧ data.length % 16 = 0 then
    .ok (cbcDecryptRaw data iv key)
  else .error .cryptoError

/-- `aesEcbEncrypt(data, iv, key).encrypted` from `src/utils/crypto.ts`,
used only on single 16-byte blocks to derive the session IVs. -/
def aesEcbEncryptE (data key : List Nat) : Except NtagFailure (List Nat) :=
  if key.length = 16 then
    .ok ((chunks16 (data.take (16 * (data.length / 16)))).map (encryptBlock key)).flatten
  else .error .cryptoError

/-! ## AES-CMAC (RFC 4493), the `node-aes-cmac` dependency -/

/-- Shift a big-endian byte string left by one bit. -/
def shl1Bytes : List Nat → List Nat
  | [] => []
  | a :: rest =>
    (((a <<< 1) % 256) ^^^ (if (rest.headD 0).testBit 7 then 1 else 0)) :: shl1Bytes rest

/-- GF(2^128) doubling used for CMAC subkeys. -/
def dblBytes (l : List Nat) : List Nat :=
  let s := shl1Bytes l
  if (l.headD 0).testBit 7 then zipXor s (zeros 15 ++ [0x87]) else s

/-- 10* padding of a final partial CMAC block. -/
def cmacPad (m : List Nat) : List Nat := m ++ [0x80] ++ zeros (15 - m.length)

/-- AES-CMAC (RFC 4493). -/
def aesCmac (key msg : List Nat) : List Nat :=
  let k1 := dblBytes (encryptBlock key (zeros 16))
  let k2 := dblBytes k1
  let blocks := chunks16 msg
  let lastBlk :=
    if msg.length % 16 = 0 ∧ msg ≠ [] then zipXor (blocks.getLastD []) k1
    else zipXor (cmacPad (blocks.getLastD [])) k2
  (blocks.dropLast ++ [lastBlk]).foldl (fun acc b => encryptBlock key (zipXor b acc)) (zeros 16)

/-! ## CRC-32 (`crc32` from `src/utils/crypto.ts`)

JavaScript 32-bit bitwise operations (`^`, `>>>`, `& 0xff`) are modelled on
`Nat` kept below `2 ^ 32`; the signed/unsigned distinction does not affect
the bit patterns.  `0 ^ -1` initialises the register to the all-ones
pattern `0xffffffff`. -/

/-- One bit of CRC feedback: `c & 1 ? 0xedb88320 ^ (c >>> 1) : c >>> 1`. -/
def crcBitStep (c : Nat) : Nat :=
  if c &&& 1 = 1 then 0xedb88320 ^^^ (c >>> 1) else c >>> 1

/-- `crcTable[n]` from the source: eight feedback steps applied to `n`. -/
def crcTableEntry (n : Nat) : Nat := crcBitStep^[8] n

/-- The source's byte loop: `crc = (crc >>> 8) ^ crcTable[(crc ^ data[i]) & 0xff]`. -/
def crc32Loop : List Nat → Nat → Nat
  | [], crc => crc
  | b :: rest, crc => crc32Loop rest ((crc >>> 8) ^^^ crcTableEntry ((crc ^^^ b) % 256))

/-- Little-endian bytes of a 32-bit value (`Buffer.writeUInt32LE`). -/
def leBytes32 (c : Nat) : List Nat :=
  [c % 256, (c >>> 8) % 256, (c >>> 16) % 256, (c >>> 24) % 256]

/-- `crc32` from `src/utils/crypto.ts`: IEEE 802.3 CRC-32 (table-driven,
init `0xffffffff`, final XOR `0xffffffff`), written little-endian, then
every byte complemented (`~byte` stored back into a `Uint8Array` is
`byte ^ 0xff` for bytes). -/
def crc32 (data : List Nat) : List Nat :=
  (leBytes32 (crc32Loop data 0xffffffff ^^^ 0xffffffff)).map (fun b => 0xff ^^^ b)

/-- The standard IEEE 802.3 CRC-32 in its bit-by-bit (reflected) form,
emitted little-endian; stated from the spec's words for comparison with
the source's table-driven `crc32`. -/
def crc32IeeeLe (data : List Nat) : List Nat :=
  leBytes32 (crc32IeeeLoop data 0xffffffff ^^^ 0xffffffff)
where
  crc32IeeeLoop : List Nat → Nat → Nat
    | [], crc => crc
    | b :: rest, crc => crc32IeeeLoop rest (crcBitStep^[8] (crc ^^^ b))

/-! ## Session-key derivation (`src/services/ntag424.ts`) -/

/-- `generateEncKey(randA, randB, authenticationKey)`:
CMAC over `SV1 = A5 5A 00 01 00 80 || randA[0..2] || randA[2..8]^randB[0..6]
|| randB[6..] || randA[8..]`.  `Buffer.subarray(a, b)` is `take b` then
`drop a`; the indexed `map` XOR is `zipXor`. -/
def generateEncKey (randA randB authenticationKey : List Nat) : List Nat :=
  let last2BytesOfA := randA.take 2
  let xOr := zipXor ((randA.take 8).drop 2) (randB.take 6)
  let beginningOfA := randA.drop 8
  let beginningOfB := randB.drop 6
  let sv1 := [0xa5, 0x5a, 0x00, 0x01, 0x00, 0x80] ++
    last2BytesOfA ++ xOr ++ beginningOfB ++ beginningOfA
  aesCmac authenticationKey sv1

/-- `generateMacKey(randA, randB, authenticationKey)`: CMAC over `SV2`,
identical to `SV1` except for the leading `5A A5`. -/
def generateMacKey (randA randB authenticationKey : List Nat) : List Nat :=
  let last2BytesOfA := randA.take 2
  let xOr := zipXor ((randA.take 8).drop 2) (randB.take 6)
  let beginningOfA := randA.drop 8
  let beginningOfB := randB.drop 6
  let sv2 := [0x5a, 0xa5, 0x00, 0x01, 0x00, 0x80] ++
    last2BytesOfA ++ xOr ++ beginningOfB ++ beginningOfA
  aesCmac authenticationKey sv2

/-! ## MAC truncation and the command MAC (`src/index.ts`) -/

/-- `buffer.filter((_, i) => i % 2 === 1)`: keep the odd-indexed bytes. -/
def filterOddIdx (l : List Nat) : List Nat :=
  (l.enum.filter (fun p => p.1 % 2 == 1)).map (fun p => p.2)

/-- `generateMac` from `src/index.ts` (session fields passed explicitly):
truncated CMAC over `commandCode || CC || TI || commandHeader || commandData`. -/
def generateMacBytes (commandCode commandHeader commandData cc ti kmac : List Nat) :
    List Nat :=
  filterOddIdx (aesCmac kmac (commandCode ++ cc ++ ti ++ commandHeader ++ commandData))

/-- `response.slice(-2)`. -/
def lastTwo (r : List Nat) : List Nat := r.drop (r.length - 2)

/-- `verifyMac` from `src/index.ts`: splits `response` into
`data || mac(8) || sw(2)`, recomputes the truncated CMAC over
`SW2 || CC || TI || data` and compares. -/
def verifyMacE (response cc ti kmac : List Nat) : Except NtagFailure (List Nat) :=
  let data := response.take (response.length - 10)
  let responseCode := lastTwo response
  let mac := (response.take (response.length - 2)).drop (response.length - 10)
  let macCheck := filterOddIdx (aesCmac kmac ([responseCode.getD 1 0] ++ cc ++ ti ++ data))
  if mac = macCheck then .ok (data ++ mac ++ responseCode)
  else .error .macMismatch

/-! ## Full-mode padding and payload encryption (`src/index.ts`) -/

/-- The padding step inside `encryptPayload`: `padding = 16 - (len % 16)`;
append `0x80` and, unless `padding === 1`, `padding - 1` zero bytes. -/
def padIso (commandData : List Nat) : List Nat :=
  let padding := 16 - commandData.length % 16
  if padding = 1 then commandData ++ [0x80]
  else commandData ++ [0x80] ++ zeros (padding - 1)

/-- `encryptPayload` from `src/index.ts`: derive the request IV by
single-block-ECB-encrypting `A5 5A || TI || CC || 00*8` under the session
encryption key, pad, CBC-encrypt. -/
def encryptPayloadE (commandData ti cc kenc : List Nat) :
    Except NtagFailure (List Nat) := do
  let iv ← aesEcbEncryptE ([0xa5, 0x5a] ++ ti ++ cc ++ zeros 8) kenc
  return aesCbcEncrypt (padIso commandData) iv kenc

/-- `decryptPayload` from `src/index.ts`: derive the response IV from
`5A A5 || TI || CC || 00*8`, CBC-decrypt the data part of
`response = data || mac(8) || sw(2)`. -/
def decryptPayloadE (response ti cc kenc : List Nat) :
    Except NtagFailure (List Nat) := do
  let data := response.take (response.length - 10)
  let responseCode := lastTwo response
  let mac := (response.take (response.length - 2)).drop (response.length - 10)
  let decryptionIv ← aesEcbEncryptE ([0x5a, 0xa5] ++ ti ++ cc ++ zeros 8) kenc
  let decrypted ← aesCbcDecryptE data decryptionIv kenc
  return decrypted ++ mac ++ responseCode

/-! ## The wrapper state machine (`src/index.ts`) -/

/-- The mutable session fields of the `Ntag424` class. -/
structure NtagState where
  isAuthenticated : Bool
  authenticatedKeySlot : Option Nat
  sessionKeyEncryption : Option (List Nat)
  sessionKeyMac : Option (List Nat)
  transactionId : Option (List Nat)
  commandCounter : Option (List Nat)
  deriving DecidableEq, Repr

/-- The freshly-constructed, unauthenticated state. -/
def initialState : NtagState :=
  ⟨false, none, none, none, none, none⟩

/-- `incrementCommandCounter`: a no-op without a counter; otherwise bump
byte 0 while it is below `0xff`, else bump byte 1 (byte stores wrap mod 256). -/
def incrementCommandCounter (s : NtagState) : NtagState :=
  match s.commandCounter with
  | none => s
  | some cc =>
    if cc.getD 0 0 < 0xff then
      { s with commandCounter := some (cc.set 0 ((cc.getD 0 0 + 1) % 256)) }
    else
      { s with commandCounter := some (cc.set 1 ((cc.getD 1 0 + 1) % 256)) }

inductive CommandMode
  | plain | mac | full
  deriving DecidableEq, Repr

/-- The `CommandOptions` record of `src/types/types.ts`. -/
structure CommandOptions where
  adpuHeader : List Nat
  commandHeader : List Nat
  commandData : List Nat
  commandMode : CommandMode
  includeLe : Bool

/-- Result of one `sendCommand` call: the returned value or thrown error,
the state afterwards, and the APDUs that reached the transport. -/
structure SendOutcome where
  result : Except NtagFailure (List Nat)
  state : NtagState
  sent : List (List Nat)
  deriving Repr

/-- `response[response.length - 1]` (as an option so that an empty
response compares unequal to any byte, as `undefined` does). -/
def lastByte (r : List Nat) : Option Nat := r.getLast?

/-- `sendCommand` from `src/index.ts`.  The transport's reply is an input
(`none` models a transceive that throws).  Faithful ordering: in `mac` and
`full` modes the MAC and ciphertext are computed with the pre-increment CC,
the status check happens before `incrementCommandCounter()`, and
`verifyMac` / `decryptPayload` read the post-increment CC. -/
def sendCommand (s : NtagState) (opts : CommandOptions) (response : Option (List Nat)) :
    SendOutcome :=
  match opts.commandMode with
  | .plain =>
    let length := opts.commandHeader.length + opts.commandData.length
    let payload := opts.adpuHeader ++ (if length > 0 then [length] else []) ++
      opts.commandHeader ++ opts.commandData ++ (if opts.includeLe then [0x00] else [])
    match response with
    | none => ⟨.error .transport, s, [payload]⟩
    | some r =>
      if lastByte r ≠ some 0x00 ∧ lastByte r ≠ some 0xaf then
        ⟨.error (.statusWord (opts.adpuHeader.take 2) (lastTwo r)), s, [payload]⟩
      else
        ⟨.ok r, incrementCommandCounter s, [payload]⟩
  | .mac =>
    if s.isAuthenticated = false then
      ⟨.error .notAuthenticated, s, []⟩
    else
      let cc := s.commandCounter.getD []
      let ti := s.transactionId.getD []
      let kmac := s.sessionKeyMac.getD []
      let mac := generateMacBytes ((opts.adpuHeader.drop 1).take 1) opts.commandHeader
        opts.commandData cc ti kmac
      let length := opts.commandHeader.length + opts.commandData.length + mac.length
      let payload := opts.adpuHeader ++ (if length > 0 then [length] else []) ++
        opts.commandHeader ++ opts.commandData ++ mac ++
        (if opts.includeLe then [0x00] else [])
      match response with
      | none => ⟨.error .transport, s, [payload]⟩
      | some r =>
        if lastByte r ≠ some 0x00 then
          ⟨.error (.statusWord (opts.adpuHeader.take 2) (lastTwo r)), s, [payload]⟩
        else
          let s' := incrementCommandCounter s
          ⟨verifyMacE r (s'.commandCounter.getD []) ti kmac, s', [payload]⟩
  | .full =>
    if s.isAuthenticated = false then
      ⟨.error .notAuthenticated, s, []⟩
    else
      let cc := s.commandCounter.getD []
      let ti := s.transactionId.getD []
      let kmac := s.sessionKeyMac.getD []
      let kenc := s.sessionKeyEncryption.getD []
      match encryptPayloadE opts.commandData ti cc kenc with
      | .error e => ⟨.error e, s, []⟩
      | .ok encryptedData =>
        let mac := generateMacBytes ((opts.adpuHeader.drop 1).take 1) opts.commandHeader
          encryptedData cc ti kmac
        let length := encryptedData.length + opts.commandHeader.length + mac.length
        let payload := opts.adpuHeader ++ (if length > 0 then [length] else []) ++
          opts.commandHeader ++ encryptedData ++ mac ++
          (if opts.includeLe then [0x00] else [])
        match response with
        | none => ⟨.error .transport, s, [payload]⟩
        | some r =>
          if lastByte r ≠ some 0x00 then
            ⟨.error (.statusWord (opts.adpuHeader.take 2) (lastTwo r)), s, [payload]⟩
          else
            let s' := incrementCommandCounter s
            let cc' := s'.commandCounter.getD []
            ⟨(decryptPayloadE r ti cc' kenc).bind (fun d => verifyMacE d cc' ti kmac),
              s', [payload]⟩

/-- `getCardUid`: a MAC-mode `0x51` command whose response is decrypted
with `decryptPayload` (using the post-command session fields). -/
def getCardUid (s : NtagState) (response : Option (List Nat)) : SendOutcome :=
  let out := sendCommand s ⟨[0x90, 0x51, 0x00, 0x00], [], [], .mac, true⟩ response
  match out.result with
  | .error e => ⟨.error e, out.state, out.sent⟩
  | .ok r =>
    ⟨decryptPayloadE r (out.state.transactionId.getD []) (out.state.commandCounter.getD [])
      (out.state.sessionKeyEncryption.getD []), out.state, out.sent⟩

/-- `authenticateEv2First` from `src/index.ts`.  `randA` stands for the
`crypto.randomBytes(16)` draw; `responses` are the card's successive
replies (`none` models a transport failure).  On any thrown error the
method aborts with the state it had reached; the session fields are
installed only after both parts succeed. -/
def authenticateEv2First (s : NtagState) (keySlot : Nat) (key randA : List Nat)
    (responses : List (Option (List Nat))) : Except NtagFailure (List Nat) × NtagState :=
  let partOne := sendCommand s
    ⟨[0x90, 0x71, 0x00, 0x00], [keySlot, 0x03, 0x00, 0x00, 0x00], [], .plain, true⟩
    (responses.getD 0 none)
  match partOne.result with
  | .error e => (.error e, partOne.state)
  | .ok r1 =>
    let s1 := partOne.state
    match aesCbcDecryptE (r1.take 16) (zeros 16) key with
    | .error e => (.error e, s1)
    | .ok randB =>
      let randBRotatedLeft := randB.drop 1 ++ randB.take 1
      let encrypted := aesCbcEncrypt (randA ++ randBRotatedLeft) (zeros 16) key
      let partTwo := sendCommand s1
        ⟨[0x90, 0xaf, 0x00, 0x00], [], encrypted, .plain, true⟩ (responses.getD 1 none)
      match partTwo.result with
      | .error e => (.error e, partTwo.state)
      | .ok r2 =>
        let s2 := partTwo.state
        match aesCbcDecryptE (r2.take 32) (zeros 16) key with
        | .error e => (.error e, s2)
        | .ok partTwoDec =>
          (.ok [0x91, 0x00],
            { isAuthenticated := true
              authenticatedKeySlot := some keySlot
              transactionId := some (partTwoDec.take 4)
              commandCounter := some (zeros 2)
              sessionKeyEncryption := some (generateEncKey randA randB key)
              sessionKeyMac := some (generateMacKey randA randB key) })

/-! ## `writeData` argument handling (`src/index.ts`) -/

/-- `Buffer.alloc(n)` for a possibly negative computed size:
a negative size throws a `RangeError`. -/
def bufferAllocE (n : Int) : Except NtagFailure (List Nat) :=
  if n < 0 then .error .allocNegative else .ok (zeros n.toNat)

inductive RwFile
  | cc | ndef | proprietary
  deriving DecidableEq, Repr

/-- The argument-validation and zero-fill phase of `writeData`, everything
the method does before its first transport interaction (the
`getFileSettings` call and the final `sendCommand` both come after the
`commandData` buffer is built).  Returns the `commandData` that would be
wrapped and sent. -/
def writeDataPrep (file : RwFile) (data : List Nat) (offset : Nat) :
    Except NtagFailure (List Nat) :=
  if data.length > 248 then
    .error (.invalidArgument "Data buffer can contain 248 bytes at most")
  else
    let payloadLength := offset + data.length
    match file with
    | .cc =>
      if payloadLength > 32 then .error (.invalidArgument "The cc file cannot exceed 32 bytes")
      else (bufferAllocE (32 - (payloadLength : Int))).map (fun z => data ++ z)
    | .ndef =>
      if payloadLength > 256 then .error (.invalidArgument "The ndef file cannot exceed 256 bytes")
      else (bufferAllocE (248 - (payloadLength : Int))).map (fun z => data ++ z)
    | .proprietary =>
      if payloadLength > 128 then .error (.invalidArgument "The proprietary file cannot exceed 128 bytes")
      else (bufferAllocE (128 - (payloadLength : Int))).map (fun z => data ++ z)

/-- A concrete authenticated session state (all-zero session keys,
TI `11 22 33 44`, CC `00 00`) used to evaluate the wrapper at
specific inputs. -/
def authedTestState : NtagState :=
  { isAuthenticated := true
    authenticatedKeySlot := some 0
    sessionKeyEncryption := some (zeros 16)
    sessionKeyMac := some (zeros 16)
    transactionId := some [0x11, 0x22, 0x33, 0x44]
    commandCounter := some [0x00, 0x00] }

/-! ## Byte-level lemmas -/

set_option maxRecDepth 100000

theorem byte_xor_lt {x y : Nat} (hx : x < 256) (hy : y < 256) : x ^^^ y < 256 :=
  Nat.xor_lt_two_pow (n := 8) hx hy

theorem shiftLeft_one_xor (x y : Nat) : (x ^^^ y) <<< 1 = x <<< 1 ^^^ y <<< 1 := by
  apply Nat.eq_of_testBit_eq
  intro i
  simp only [Nat.testBit_shiftLeft, Nat.testBit_xor]
  cases h : decide (1 ≤ i) <;> simp

theorem xor_left_comm (a b c : Nat) : a ^^^ (b ^^^ c) = b ^^^ (a ^^^ c) := by
  rw [← Nat.xor_assoc, Nat.xor_comm a b, Nat.xor_assoc]

theorem xtime_xor (x y : Nat) : xtime (x ^^^ y) = xtime x ^^^ xtime y := by
  unfold xtime
  rw [Nat.testBit_xor]
  rcases hx : x.testBit 7 <;> rcases hy : y.testBit 7 <;>
    simp [shiftLeft_one_xor, Nat.xor_assoc, Nat.xor_comm, xor_left_comm,
      Nat.xor_cancel_left, Nat.xor_self, Nat.xor_zero]

theorem g2_xor (x y : Nat) : g2 (x ^^^ y) = g2 x ^^^ g2 y := xtime_xor x y

theorem g3_xor (x y : Nat) : g3 (x ^^^ y) = g3 x ^^^ g3 y := by
  simp only [g3, xtime_xor]; ac_rfl

theorem g9_xor (x y : Nat) : g9 (x ^^^ y) = g9 x ^^^ g9 y := by
  simp only [g9, xtime_xor]; ac_rfl

theorem g11_xor (x y : Nat) : g11 (x ^^^ y) = g11 x ^^^ g11 y := by
  simp only [g11, xtime_xor]; ac_rfl

theorem g13_xor (x y : Nat) : g13 (x ^^^ y) = g13 x ^^^ g13 y := by
  simp only [g13, xtime_xor]; ac_rfl

theorem g14_xor (x y : Nat) : g14 (x ^^^ y) = g14 x ^^^ g14 y := by
  simp only [g14, xtime_xor]; ac_rfl

/-- Row–column products of the InvMixColumns and MixColumns matrices:
the diagonal entry of `invM · M` is 1. -/
theorem coefDiag : ∀ x < 256, g14 (g2 x) ^^^ g11 x ^^^ g13 x ^^^ g9 (g3 x) = x := by decide

/-- Off-diagonal entry (offset 1) of `invM · M` is 0. -/
theorem coefOff1 : ∀ x < 256, g14 (g3 x) ^^^ g11 (g2 x) ^^^ g13 x ^^^ g9 x = 0 := by decide

/-- Off-diagonal entry (offset 2) of `invM · M` is 0. -/
theorem coefOff2 : ∀ x < 256, g14 x ^^^ g11 (g3 x) ^^^ g13 (g2 x) ^^^ g9 x = 0 := by decide

/-- Off-diagonal entry (offset 3) of `invM · M` is 0. -/
theorem coefOff3 : ∀ x < 256, g14 x ^^^ g11 x ^^^ g13 (g3 x) ^^^ g9 (g2 x) = 0 := by decide

theorem sbox_lt_of_lt : ∀ b < 256, sbox b < 256 := by decide

theorem invSbox_sbox : ∀ b < 256, invSbox (sbox b) = b := by decide

theorem xtime_lt : ∀ b < 256, xtime b < 256 := by decide

theorem sbox_lt (b : Nat) : sbox b < 256 := by
  rcases Nat.lt_or_ge b 256 with h | h
  · exact sbox_lt_of_lt b h
  · rw [sbox, List.getD_eq_default]
    · norm_num
    · have : sboxTable.length = 256 := by decide
      omega

/-! ## List helpers -/

theorem exists_len4 {α : Type _} (l : List α) (h : l.length = 4) :
    ∃ a b c d, l = [a, b, c, d] := by
  rcases l with _ | ⟨a, l⟩
  · simp at h
  rcases l with _ | ⟨b, l⟩
  · simp at h
  rcases l with _ | ⟨c, l⟩
  · simp at h
  rcases l with _ | ⟨d, l⟩
  · simp at h
  rcases l with _ | ⟨e, l⟩
  · exact ⟨a, b, c, d, rfl⟩
  · simp at h

theorem exists_len16 {α : Type _} (l : List α) (h : l.length = 16) :
    ∃ b0 b1 b2 b3 b4 b5 b6 b7 b8 b9 b10 b11 b12 b13 b14 b15,
      l = [b0, b1, b2, b3, b4, b5, b6, b7, b8, b9, b10, b11, b12, b13, b14, b15] := by
  rcases l with _ | ⟨b0, l⟩
  · simp at h
  rcases l with _ | ⟨b1, l⟩
  · simp at h
  rcases l with _ | ⟨b2, l⟩
  · simp at h
  rcases l with _ | ⟨b3, l⟩
  · simp at h
  rcases l with _ | ⟨b4, l⟩
  · simp at h
  rcases l with _ | ⟨b5, l⟩
  · simp at h
  rcases l with _ | ⟨b6, l⟩
  · simp at h
  rcases l with _ | ⟨b7, l⟩
  · simp at h
  rcases l with _ | ⟨b8, l⟩
  · simp at h
  rcases l with _ | ⟨b9, l⟩
  · simp at h
  rcases l with _ | ⟨b10, l⟩
  · simp at h
  rcases l with _ | ⟨b11, l⟩
  · simp at h
  rcases l with _ | ⟨b12, l⟩
  · simp at h
  rcases l with _ | ⟨b13, l⟩
  · simp at h
  rcases l with _ | ⟨b14, l⟩
  · simp at h
  rcases l with _ | ⟨b15, l⟩
  · simp at h
  rcases l with _ | ⟨b16, l⟩
  · exact ⟨b0, b1, b2, b3, b4, b5, b6, b7, b8, b9, b10, b11, b12, b13, b14, b15, rfl⟩
  · simp at h

theorem zipXor_length (a b : List Nat) : (zipXor a b).length = min a.length b.length := by
  simp [zipXor]

theorem zipXor_self_cancel : ∀ (s k : List Nat), s.length ≤ k.length →
    zipXor (zipXor s k) k = s
  | [], _, _ => rfl
  | a :: s, b :: k, h => by
    simp only [zipXor, List.zipWith_cons_cons]
    refine congrArg₂ _ (Nat.xor_cancel_right b a) (zipXor_self_cancel s k ?_)
    simpa using h
  | a :: s, [], h => by simp at h

theorem bytesLt_nil : BytesLt [] := by intro b hb; simp at hb

theorem bytesLt_cons {a : Nat} {l : List Nat} (ha : a < 256) (hl : BytesLt l) :
    BytesLt (a :: l) := by
  intro b hb
  rcases List.mem_cons.mp hb with rfl | hb
  · exact ha
  · exact hl b hb

theorem bytesLt_append {a b : List Nat} (ha : BytesLt a) (hb : BytesLt b) :
    BytesLt (a ++ b) := by
  intro x hx
  rcases List.mem_append.mp hx with h | h
  · exact ha x h
  · exact hb x h

theorem bytesLt_zeros (n : Nat) : BytesLt (zeros n) := by
  intro b hb
  simp [zeros] at hb
  omega

theorem bytesLt_take {l : List Nat} (h : BytesLt l) (n : Nat) : BytesLt (l.take n) :=
  fun b hb => h b (List.mem_of_mem_take hb)

theorem bytesLt_drop {l : List Nat} (h : BytesLt l) (n : Nat) : BytesLt (l.drop n) :=
  fun b hb => h b (List.mem_of_mem_drop hb)

theorem bytesLt_zipXor : ∀ (a b : List Nat), BytesLt a → BytesLt b → BytesLt (zipXor a b)
  | [], _, _, _ => bytesLt_nil
  | _ :: _, [], _, _ => bytesLt_nil
  | x :: a, y :: b, ha, hb => by
    simp only [zipXor, List.zipWith_cons_cons]
    exact bytesLt_cons
      (byte_xor_lt (ha x (by simp)) (hb y (by simp)))
      (bytesLt_zipXor a b (fun c hc => ha c (by simp [hc])) (fun c hc => hb c (by simp [hc])))

/-! ## AES step lemmas -/

theorem invSbox_lt_of_lt : ∀ b < 256, invSbox b < 256 := by decide

theorem subBytesL_length (s : List Nat) : (subBytesL s).length = s.length := by
  simp [subBytesL]

theorem subBytesL_bytesLt (s : List Nat) : BytesLt (subBytesL s) := by
  intro b hb
  simp [subBytesL] at hb
  obtain ⟨a, _, rfl⟩ := hb
  exact sbox_lt a

theorem invSubBytesL_subBytesL : ∀ (s : List Nat), BytesLt s →
    invSubBytesL (subBytesL s) = s
  | [], _ => rfl
  | a :: s, h => by
    simp only [subBytesL, invSubBytesL, List.map_cons]
    refine congrArg₂ _ (invSbox_sbox a (h a (by simp))) ?_
    exact invSubBytesL_subBytesL s (fun b hb => h b (by simp [hb]))

theorem g2_lt : ∀ b < 256, g2 b < 256 := xtime_lt

theorem g3_lt : ∀ b < 256, g3 b < 256 := by decide

theorem g9_lt : ∀ b < 256, g9 b < 256 := by decide

theorem g11_lt : ∀ b < 256, g11 b < 256 := by decide

theorem g13_lt : ∀ b < 256, g13 b < 256 := by decide

theorem g14_lt : ∀ b < 256, g14 b < 256 := by decide

theorem mixColumnsL_nil : mixColumnsL [] = [] := rfl

theorem mixColumnsL_cons (a b c d : Nat) (t : List Nat) :
    mixColumnsL (a :: b :: c :: d :: t) = mixCol a b c d ++ mixColumnsL t := rfl

theorem invMixColumnsL_nil : invMixColumnsL [] = [] := rfl

theorem invMixColumnsL_cons (a b c d : Nat) (t : List Nat) :
    invMixColumnsL (a :: b :: c :: d :: t) = invMixCol a b c d ++ invMixColumnsL t := rfl

/-- The first component of `invMixCol` applied to a MixColumns output column. -/
theorem invMix_component0 (a b c d : Nat)
    (ha : a < 256) (hb : b < 256) (hc : c < 256) (hd : d < 256) :
    g14 (g2 a ^^^ g3 b ^^^ c ^^^ d) ^^^ g11 (a ^^^ g2 b ^^^ g3 c ^^^ d) ^^^
      g13 (a ^^^ b ^^^ g2 c ^^^ g3 d) ^^^ g9 (g3 a ^^^ b ^^^ c ^^^ g2 d) = a := by
  simp only [g14_xor, g11_xor, g13_xor, g9_xor]
  have key : (g14 (g2 a) ^^^ g11 a ^^^ g13 a ^^^ g9 (g3 a)) ^^^
      ((g14 (g3 b) ^^^ g11 (g2 b) ^^^ g13 b ^^^ g9 b) ^^^
        ((g14 c ^^^ g11 (g3 c) ^^^ g13 (g2 c) ^^^ g9 c) ^^^
          (g14 d ^^^ g11 d ^^^ g13 (g3 d) ^^^ g9 (g2 d)))) = a := by
    rw [coefDiag a ha, coefOff1 b hb, coefOff2 c hc, coefOff3 d hd]
    simp
  exact Eq.trans (by ac_rfl) key

theorem invMix_component1 (a b c d : Nat)
    (ha : a < 256) (hb : b < 256) (hc : c < 256) (hd : d < 256) :
    g9 (g2 a ^^^ g3 b ^^^ c ^^^ d) ^^^ g14 (a ^^^ g2 b ^^^ g3 c ^^^ d) ^^^
      g11 (a ^^^ b ^^^ g2 c ^^^ g3 d) ^^^ g13 (g3 a ^^^ b ^^^ c ^^^ g2 d) = b := by
  simp only [g14_xor, g11_xor, g13_xor, g9_xor]
  have key : (g14 a ^^^ g11 a ^^^ g13 (g3 a) ^^^ g9 (g2 a)) ^^^
      ((g14 (g2 b) ^^^ g11 b ^^^ g13 b ^^^ g9 (g3 b)) ^^^
        ((g14 (g3 c) ^^^ g11 (g2 c) ^^^ g13 c ^^^ g9 c) ^^^
          (g14 d ^^^ g11 (g3 d) ^^^ g13 (g2 d) ^^^ g9 d))) = b := by
    rw [coefOff3 a ha, coefDiag b hb, coefOff1 c hc, coefOff2 d hd]
    simp
  exact Eq.trans (by ac_rfl) key

theorem invMix_component2 (a b c d : Nat)
    (ha : a < 256) (hb : b < 256) (hc : c < 256) (hd : d < 256) :
    g13 (g2 a ^^^ g3 b ^^^ c ^^^ d) ^^^ g9 (a ^^^ g2 b ^^^ g3 c ^^^ d) ^^^
      g14 (a ^^^ b ^^^ g2 c ^^^ g3 d) ^^^ g11 (g3 a ^^^ b ^^^ c ^^^ g2 d) = c := by
  simp only [g14_xor, g11_xor, g13_xor, g9_xor]
  have key : (g14 a ^^^ g11 (g3 a) ^^^ g13 (g2 a) ^^^ g9 a) ^^^
      ((g14 b ^^^ g11 b ^^^ g13 (g3 b) ^^^ g9 (g2 b)) ^^^
        ((g14 (g2 c) ^^^ g11 c ^^^ g13 c ^^^ g9 (g3 c)) ^^^
          (g14 (g3 d) ^^^ g11 (g2 d) ^^^ g13 d ^^^ g9 d))) = c := by
    rw [coefOff2 a ha, coefOff3 b hb, coefDiag c hc, coefOff1 d hd]
    simp
  exact Eq.trans (by ac_rfl) key

theorem invMix_component3 (a b c d : Nat)
    (ha : a < 256) (hb : b < 256) (hc : c < 256) (hd : d < 256) :
    g11 (g2 a ^^^ g3 b ^^^ c ^^^ d) ^^^ g13 (a ^^^ g2 b ^^^ g3 c ^^^ d) ^^^
      g9 (a ^^^ b ^^^ g2 c ^^^ g3 d) ^^^ g14 (g3 a ^^^ b ^^^ c ^^^ g2 d) = d := by
  simp only [g14_xor, g11_xor, g13_xor, g9_xor]
  have key : (g14 (g3 a) ^^^ g11 (g2 a) ^^^ g13 a ^^^ g9 a) ^^^
      ((g14 b ^^^ g11 (g3 b) ^^^ g13 (g2 b) ^^^ g9 b) ^^^
        ((g14 c ^^^ g11 c ^^^ g13 (g3 c) ^^^ g9 (g2 c)) ^^^
          (g14 (g2 d) ^^^ g11 d ^^^ g13 d ^^^ g9 (g3 d)))) = d := by
    rw [coefOff1 a ha, coefOff2 b hb, coefOff3 c hc, coefDiag d hd]
    simp
  exact Eq.trans (by ac_rfl) key

theorem invMixCol_mixCol (a b c d : Nat)
    (ha : a < 256) (hb : b < 256) (hc : c < 256) (hd : d < 256) :
    invMixColumnsL (mixCol a b c d ++ [] : List Nat) = [a, b, c, d] := by
  simp only [mixCol, List.cons_append, List.nil_append, invMixColumnsL_cons,
    invMixColumnsL_nil, invMixCol, List.append_nil]
  rw [invMix_component0 a b c d ha hb hc hd, invMix_component1 a b c d ha hb hc hd,
    invMix_component2 a b c d ha hb hc hd, invMix_component3 a b c d ha hb hc hd]

theorem invMixColumnsL_mixCol_append (a b c d : Nat) (t : List Nat)
    (ha : a < 256) (hb : b < 256) (hc : c < 256) (hd : d < 256) :
    invMixColumnsL (mixCol a b c d ++ t) = [a, b, c, d] ++ invMixColumnsL t := by
  simp only [mixCol, List.cons_append, List.nil_append, invMixColumnsL_cons, invMixCol]
  rw [invMix_component0 a b c d ha hb hc hd, invMix_component1 a b c d ha hb hc hd,
    invMix_component2 a b c d ha hb hc hd, invMix_component3 a b c d ha hb hc hd]

theorem invShiftRowsL_shiftRowsL (s : List Nat) (h : s.length = 16) :
    invShiftRowsL (shiftRowsL s) = s := by
  obtain ⟨b0, b1, b2, b3, b4, b5, b6, b7, b8, b9, b10, b11, b12, b13, b14, b15, rfl⟩ :=
    exists_len16 s h
  rfl

theorem shiftRowsL_length (s : List Nat) (h : s.length = 16) : (shiftRowsL s).length = 16 := by
  obtain ⟨b0, b1, b2, b3, b4, b5, b6, b7, b8, b9, b10, b11, b12, b13, b14, b15, rfl⟩ :=
    exists_len16 s h
  rfl

theorem shiftRowsL_bytesLt (s : List Nat) (h : s.length = 16) (hb : BytesLt s) :
    BytesLt (shiftRowsL s) := by
  obtain ⟨b0, b1, b2, b3, b4, b5, b6, b7, b8, b9, b10, b11, b12, b13, b14, b15, rfl⟩ :=
    exists_len16 s h
  simp only [BytesLt, shiftRowsL, List.forall_mem_cons, List.not_mem_nil] at hb ⊢
  tauto

theorem mixCol_bytesLt (a b c d : Nat)
    (ha : a < 256) (hb : b < 256) (hc : c < 256) (hd : d < 256) :
    BytesLt (mixCol a b c d) := by
  have e0 : g2 a ^^^ g3 b ^^^ c ^^^ d < 256 :=
    byte_xor_lt (byte_xor_lt (byte_xor_lt (g2_lt a ha) (g3_lt b hb)) hc) hd
  have e1 : a ^^^ g2 b ^^^ g3 c ^^^ d < 256 :=
    byte_xor_lt (byte_xor_lt (byte_xor_lt ha (g2_lt b hb)) (g3_lt c hc)) hd
  have e2 : a ^^^ b ^^^ g2 c ^^^ g3 d < 256 :=
    byte_xor_lt (byte_xor_lt (byte_xor_lt ha hb) (g2_lt c hc)) (g3_lt d hd)
  have e3 : g3 a ^^^ b ^^^ c ^^^ g2 d < 256 :=
    byte_xor_lt (byte_xor_lt (byte_xor_lt (g3_lt a ha) hb) hc) (g2_lt d hd)
  intro x hx
  simp only [mixCol, List.mem_cons, List.not_mem_nil, or_false] at hx
  rcases hx with rfl | rfl | rfl | rfl <;> assumption

theorem mixColumnsL_length16 (s : List Nat) (h : s.length = 16) :
    (mixColumnsL s).length = 16 := by
  obtain ⟨b0, b1, b2, b3, b4, b5, b6, b7, b8, b9, b10, b11, b12, b13, b14, b15, rfl⟩ :=
    exists_len16 s h
  rfl

theorem mixColumnsL_bytesLt16 (s : List Nat) (h : s.length = 16) (hb : BytesLt s) :
    BytesLt (mixColumnsL s) := by
  obtain ⟨b0, b1, b2, b3, b4, b5, b6, b7, b8, b9, b10, b11, b12, b13, b14, b15, rfl⟩ :=
    exists_len16 s h
  simp only [BytesLt, List.forall_mem_cons, List.not_mem_nil] at hb
  obtain ⟨h0, h1, h2, h3, h4, h5, h6, h7, h8, h9, h10, h11, h12, h13, h14, h15, -⟩ := hb
  rw [show ([b0, b1, b2, b3, b4, b5, b6, b7, b8, b9, b10, b11, b12, b13, b14, b15] : List Nat)
      = [b0, b1, b2, b3] ++ ([b4, b5, b6, b7] ++ ([b8, b9, b10, b11] ++ [b12, b13, b14, b15]))
    from rfl]
  rw [show mixColumnsL ([b0, b1, b2, b3] ++ ([b4, b5, b6, b7] ++
        ([b8, b9, b10, b11] ++ [b12, b13, b14, b15])))
      = mixCol b0 b1 b2 b3 ++ (mixCol b4 b5 b6 b7 ++
        (mixCol b8 b9 b10 b11 ++ (mixCol b12 b13 b14 b15 ++ []))) from rfl]
  exact bytesLt_append (mixCol_bytesLt _ _ _ _ h0 h1 h2 h3)
    (bytesLt_append (mixCol_bytesLt _ _ _ _ h4 h5 h6 h7)
      (bytesLt_append (mixCol_bytesLt _ _ _ _ h8 h9 h10 h11)
        (bytesLt_append (mixCol_bytesLt _ _ _ _ h12 h13 h14 h15) bytesLt_nil)))

theorem invMixColumnsL_mixColumnsL (s : List Nat) (h : s.length = 16) (hb : BytesLt s) :
    invMixColumnsL (mixColumnsL s) = s := by
  obtain ⟨b0, b1, b2, b3, b4, b5, b6, b7, b8, b9, b10, b11, b12, b13, b14, b15, rfl⟩ :=
    exists_len16 s h
  simp only [BytesLt, List.forall_mem_cons, List.not_mem_nil] at hb
  obtain ⟨h0, h1, h2, h3, h4, h5, h6, h7, h8, h9, h10, h11, h12, h13, h14, h15, -⟩ := hb
  rw [show mixColumnsL [b0, b1, b2, b3, b4, b5, b6, b7, b8, b9, b10, b11, b12, b13, b14, b15]
      = mixCol b0 b1 b2 b3 ++ (mixCol b4 b5 b6 b7 ++
        (mixCol b8 b9 b10 b11 ++ (mixCol b12 b13 b14 b15 ++ []))) from rfl]
  rw [invMixColumnsL_mixCol_append _ _ _ _ _ h0 h1 h2 h3,
    invMixColumnsL_mixCol_append _ _ _ _ _ h4 h5 h6 h7,
    invMixColumnsL_mixCol_append _ _ _ _ _ h8 h9 h10 h11,
    invMixColumnsL_mixCol_append _ _ _ _ _ h12 h13 h14 h15, invMixColumnsL_nil]
  rfl

theorem addRoundKey_length (k s : List Nat) (hk : k.length = 16) (hs : s.length = 16) :
    (addRoundKey k s).length = 16 := by
  simp [addRoundKey, zipXor_length, hk, hs]

theorem addRoundKey_bytesLt (k s : List Nat) (hkb : BytesLt k) (hsb : BytesLt s) :
    BytesLt (addRoundKey k s) := bytesLt_zipXor s k hsb hkb

theorem addRoundKey_cancel (k s : List Nat) (h : s.length ≤ k.length) :
    addRoundKey k (addRoundKey k s) = s := zipXor_self_cancel s k h

/-- One middle encryption round preserves length-16 and byte bounds. -/
theorem encStep_block (k s : List Nat) (hk : k.length = 16) (hkb : BytesLt k)
    (hs : s.length = 16) (hsb : BytesLt s) :
    (addRoundKey k (mixColumnsL (shiftRowsL (subBytesL s)))).length = 16 ∧
      BytesLt (addRoundKey k (mixColumnsL (shiftRowsL (subBytesL s)))) := by
  have l1 : (subBytesL s).length = 16 := by rw [subBytesL_length, hs]
  have l2 : (shiftRowsL (subBytesL s)).length = 16 := shiftRowsL_length _ l1
  have b2 : BytesLt (shiftRowsL (subBytesL s)) := shiftRowsL_bytesLt _ l1 (subBytesL_bytesLt s)
  have l3 : (mixColumnsL (shiftRowsL (subBytesL s))).length = 16 := mixColumnsL_length16 _ l2
  have b3 : BytesLt (mixColumnsL (shiftRowsL (subBytesL s))) := mixColumnsL_bytesLt16 _ l2 b2
  exact ⟨addRoundKey_length k _ hk l3, addRoundKey_bytesLt k _ hkb b3⟩

theorem encRounds_block : ∀ (ks : List (List Nat)) (s : List Nat),
    (∀ k ∈ ks, k.length = 16 ∧ BytesLt k) → s.length = 16 → BytesLt s →
    (encRounds ks s).length = 16 ∧ BytesLt (encRounds ks s)
  | [], s, _, hs, hsb => ⟨hs, hsb⟩
  | [k], s, hk, hs, hsb => by
    obtain ⟨hk16, hkb⟩ := hk k (by simp)
    simp only [encRounds]
    have l1 : (subBytesL s).length = 16 := by rw [subBytesL_length, hs]
    have l2 : (shiftRowsL (subBytesL s)).length = 16 := shiftRowsL_length _ l1
    have b2 : BytesLt (shiftRowsL (subBytesL s)) := shiftRowsL_bytesLt _ l1 (subBytesL_bytesLt s)
    exact ⟨addRoundKey_length k _ hk16 l2, addRoundKey_bytesLt k _ hkb b2⟩
  | k :: k' :: ks, s, hk, hs, hsb => by
    obtain ⟨hk16, hkb⟩ := hk k (by simp)
    simp only [encRounds]
    obtain ⟨l4, b4⟩ := encStep_block k s hk16 hkb hs hsb
    exact encRounds_block (k' :: ks) _ (fun x hx => hk x (by simp [List.mem_cons] at hx ⊢; tauto))
      l4 b4

theorem decRounds_encRounds : ∀ (ks : List (List Nat)) (s : List Nat),
    (∀ k ∈ ks, k.length = 16 ∧ BytesLt k) → s.length = 16 → BytesLt s →
    decRounds ks (encRounds ks s) = s
  | [], _, _, _, _ => rfl
  | [k], s, hk, hs, hsb => by
    obtain ⟨hk16, _⟩ := hk k (by simp)
    simp only [encRounds, decRounds]
    have l1 : (subBytesL s).length = 16 := by rw [subBytesL_length, hs]
    have l2 : (shiftRowsL (subBytesL s)).length = 16 := shiftRowsL_length _ l1
    rw [addRoundKey_cancel k _ (by omega), invShiftRowsL_shiftRowsL _ l1,
      invSubBytesL_subBytesL s hsb]
  | k :: k' :: ks, s, hk, hs, hsb => by
    obtain ⟨hk16, hkb⟩ := hk k (by simp)
    simp only [encRounds, decRounds]
    obtain ⟨l4, b4⟩ := encStep_block k s hk16 hkb hs hsb
    rw [decRounds_encRounds (k' :: ks) _
      (fun x hx => hk x (by simp [List.mem_cons] at hx ⊢; tauto)) l4 b4]
    have l1 : (subBytesL s).length = 16 := by rw [subBytesL_length, hs]
    have l2 : (shiftRowsL (subBytesL s)).length = 16 := shiftRowsL_length _ l1
    have b2 : BytesLt (shiftRowsL (subBytesL s)) := shiftRowsL_bytesLt _ l1 (subBytesL_bytesLt s)
    have l3 : (mixColumnsL (shiftRowsL (subBytesL s))).length = 16 := mixColumnsL_length16 _ l2
    rw [addRoundKey_cancel k _ (by omega), invMixColumnsL_mixColumnsL _ l2 b2,
      invShiftRowsL_shiftRowsL _ l1, invSubBytesL_subBytesL s hsb]

/-! ## Key-expansion bookkeeping -/

theorem getD_mem : ∀ {α : Type _} (l : List α) (n : Nat) (d : α), n < l.length → l.getD n d ∈ l
  | _, [], n, d, h => by simp at h
  | _, a :: l, 0, d, _ => by simp
  | _, a :: l, n + 1, d, h => by
    simp only [List.getD_cons_succ]
    exact List.mem_cons_of_mem a (getD_mem l n d (by simpa using h))

theorem rcon_lt (n : Nat) : rconTable.getD n 0 < 256 := by
  rcases Nat.lt_or_ge n 10 with h | h
  · exact (by decide : ∀ m < 10, rconTable.getD m 0 < 256) n h
  · rw [List.getD_eq_default]
    · norm_num
    · have : rconTable.length = 10 := by decide
      omega

theorem ksStep_words (i : Nat) (acc : List (List Nat))
    (hw : ∀ w ∈ acc, w.length = 4 ∧ BytesLt w) (hl : 4 ≤ acc.length) :
    (∀ w ∈ ksStep i acc, w.length = 4 ∧ BytesLt w) ∧ 4 ≤ (ksStep i acc).length := by
  have h1 : acc.getD 0 [] ∈ acc := getD_mem acc 0 [] (by omega)
  have h4 : acc.getD 3 [] ∈ acc := getD_mem acc 3 [] (by omega)
  obtain ⟨hp1len, hp1b⟩ := hw _ h1
  obtain ⟨hp4len, hp4b⟩ := hw _ h4
  obtain ⟨a, b, c, d, he⟩ := exists_len4 _ hp1len
  constructor
  · intro w hww
    simp only [ksStep, List.mem_cons] at hww
    rcases hww with rfl | hww
    · split
      · constructor
        · have hsw : (subWordBytes (rotWordBytes (acc.getD 0 []))).length = 4 := by
            rw [he]; rfl
          rw [zipXor_length, zipXor_length, hsw, hp4len]
          rfl
        · refine bytesLt_zipXor _ _ hp4b (bytesLt_zipXor _ _ ?_ ?_)
          · intro x hx
            simp only [subWordBytes, List.mem_map] at hx
            obtain ⟨y, _, rfl⟩ := hx
            exact sbox_lt y
          · intro x hx
            simp only [List.mem_cons, List.not_mem_nil, or_false] at hx
            rcases hx with rfl | rfl | rfl | rfl
            · exact rcon_lt _
            all_goals omega
      · exact ⟨by rw [zipXor_length, hp4len, hp1len]; rfl, bytesLt_zipXor _ _ hp4b hp1b⟩
    · exact hw w hww
  · simp only [ksStep, List.length_cons]
    omega

theorem ksRun_words : ∀ (fuel i : Nat) (acc : List (List Nat)),
    (∀ w ∈ acc, w.length = 4 ∧ BytesLt w) → 4 ≤ acc.length →
    ∀ w ∈ ksRun fuel i acc, w.length = 4 ∧ BytesLt w
  | 0, _, acc, hw, _, w, hww => hw w hww
  | fuel + 1, i, acc, hw, hl, w, hww => by
    obtain ⟨hw', hl'⟩ := ksStep_words i acc hw hl
    exact ksRun_words fuel (i + 1) (ksStep i acc) hw' hl' w hww

theorem groupRoundKeys_prop : ∀ (ws : List (List Nat)),
    (∀ w ∈ ws, w.length = 4 ∧ BytesLt w) →
    ∀ rk ∈ groupRoundKeys ws, rk.length = 16 ∧ BytesLt rk
  | [], _, rk, hrk => by simp [groupRoundKeys] at hrk
  | [_], _, rk, hrk => by simp [groupRoundKeys] at hrk
  | [_, _], _, rk, hrk => by simp [groupRoundKeys] at hrk
  | [_, _, _], _, rk, hrk => by simp [groupRoundKeys] at hrk
  | w0 :: w1 :: w2 :: w3 :: rest, h, rk, hrk => by
    simp only [groupRoundKeys, List.mem_cons] at hrk
    rcases hrk with rfl | hrk
    · obtain ⟨l0, b0⟩ := h w0 (by simp)
      obtain ⟨l1, b1⟩ := h w1 (by simp)
      obtain ⟨l2, b2⟩ := h w2 (by simp)
      obtain ⟨l3, b3⟩ := h w3 (by simp)
      refine ⟨by simp [l0, l1, l2, l3], ?_⟩
      exact bytesLt_append (bytesLt_append (bytesLt_append b0 b1) b2) b3
    · exact groupRoundKeys_prop rest (fun w hw => h w (by simp [hw])) rk hrk

theorem expandKey_props (key : List Nat) (hk : key.length = 16) (hkb : BytesLt key) :
    ∀ rk ∈ expandKey key, rk.length = 16 ∧ BytesLt rk := by
  intro rk hrk
  refine groupRoundKeys_prop _ ?_ rk hrk
  intro w hw
  rw [List.mem_reverse] at hw
  refine ksRun_words 40 4 _ ?_ (by simp) w hw
  intro x hx
  simp only [List.mem_cons, List.not_mem_nil, or_false] at hx
  have ht : ∀ n, (key.drop n).length = 16 - n := by intro n; simp [hk]
  rcases hx with rfl | rfl | rfl | rfl
  · exact ⟨by simpa using ht 12, bytesLt_drop hkb 12⟩
  · exact ⟨by simp [hk], bytesLt_take (bytesLt_drop hkb 8) 4⟩
  · exact ⟨by simp [hk], bytesLt_take (bytesLt_drop hkb 4) 4⟩
  · exact ⟨by simp [hk], bytesLt_take hkb 4⟩

theorem encryptBlock_block (key b : List Nat) (hk : key.length = 16) (hkb : BytesLt key)
    (hb16 : b.length = 16) (hbb : BytesLt b) :
    (encryptBlock key b).length = 16 ∧ BytesLt (encryptBlock key b) := by
  unfold encryptBlock
  rcases hek : expandKey key with _ | ⟨k0, ks⟩
  · exact ⟨hb16, hbb⟩
  · have hrs := expandKey_props key hk hkb
    rw [hek] at hrs
    obtain ⟨hk0, hk0b⟩ := hrs k0 (by simp)
    exact encRounds_block ks _ (fun x hx => hrs x (by simp [hx]))
      (addRoundKey_length k0 b hk0 hb16) (addRoundKey_bytesLt k0 b hk0b hbb)

theorem decryptBlock_encryptBlock (key b : List Nat) (hk : key.length = 16)
    (hkb : BytesLt key) (hb16 : b.length = 16) (hbb : BytesLt b) :
    decryptBlock key (encryptBlock key b) = b := by
  unfold encryptBlock decryptBlock
  rcases hek : expandKey key with _ | ⟨k0, ks⟩
  · rfl
  · have hrs := expandKey_props key hk hkb
    rw [hek] at hrs
    obtain ⟨hk0, hk0b⟩ := hrs k0 (by simp)
    show addRoundKey k0 (decRounds ks (encRounds ks (addRoundKey k0 b))) = b
    rw [decRounds_encRounds ks _ (fun x hx => hrs x (by simp [hx]))
      (addRoundKey_length k0 b hk0 hb16) (addRoundKey_bytesLt k0 b hk0b hbb)]
    exact addRoundKey_cancel k0 b (by omega)

/-! ## CBC-mode lemmas -/

theorem chunks16_nil : chunks16 [] = [] := rfl

theorem chunks16_cons16 (b0 b1 b2 b3 b4 b5 b6 b7 b8 b9 b10 b11 b12 b13 b14 b15 : Nat)
    (rest : List Nat) :
    chunks16 (b0 :: b1 :: b2 :: b3 :: b4 :: b5 :: b6 :: b7 :: b8 :: b9 :: b10 :: b11 ::
        b12 :: b13 :: b14 :: b15 :: rest) =
      [b0, b1, b2, b3, b4, b5, b6, b7, b8, b9, b10, b11, b12, b13, b14, b15] ::
        chunks16 rest := rfl

theorem cbcEncBlocks_nil (key iv : List Nat) : cbcEncBlocks key iv [] = [] := rfl

theorem cbcEncBlocks_cons (key iv b : List Nat) (bs : List (List Nat)) :
    cbcEncBlocks key iv (b :: bs) =
      encryptBlock key (zipXor b iv) :: cbcEncBlocks key (encryptBlock key (zipXor b iv)) bs :=
  rfl

theorem cbcDecBlocks_nil (key iv : List Nat) : cbcDecBlocks key iv [] = [] := rfl

theorem cbcDecBlocks_cons (key iv c : List Nat) (cs : List (List Nat)) :
    cbcDecBlocks key iv (c :: cs) =
      zipXor (decryptBlock key c) iv :: cbcDecBlocks key c cs := rfl

theorem flatten_chunks16 : ∀ (l : List Nat), (chunks16 l).flatten = l
  | [] => rfl
  | [b0] => rfl
  | [b0, b1] => rfl
  | [b0, b1, b2] => rfl
  | [b0, b1, b2, b3] => rfl
  | [b0, b1, b2, b3, b4] => rfl
  | [b0, b1, b2, b3, b4, b5] => rfl
  | [b0, b1, b2, b3, b4, b5, b6] => rfl
  | [b0, b1, b2, b3, b4, b5, b6, b7] => rfl
  | [b0, b1, b2, b3, b4, b5, b6, b7, b8] => rfl
  | [b0, b1, b2, b3, b4, b5, b6, b7, b8, b9] => rfl
  | [b0, b1, b2, b3, b4, b5, b6, b7, b8, b9, b10] => rfl
  | [b0, b1, b2, b3, b4, b5, b6, b7, b8, b9, b10, b11] => rfl
  | [b0, b1, b2, b3, b4, b5, b6, b7, b8, b9, b10, b11, b12] => rfl
  | [b0, b1, b2, b3, b4, b5, b6, b7, b8, b9, b10, b11, b12, b13] => rfl
  | [b0, b1, b2, b3, b4, b5, b6, b7, b8, b9, b10, b11, b12, b13, b14] => rfl
  | b0 :: b1 :: b2 :: b3 :: b4 :: b5 :: b6 :: b7 :: b8 :: b9 :: b10 :: b11 :: b12 :: b13 :: b14 :: b15 :: rest => by
    rw [chunks16_cons16, List.flatten_cons, flatten_chunks16 rest]
    rfl

theorem chunks16_single (l : List Nat) (h : l.length = 16) : chunks16 l = [l] := by
  obtain ⟨b0, b1, b2, b3, b4, b5, b6, b7, b8, b9, b10, b11, b12, b13, b14, b15, rfl⟩ :=
    exists_len16 l h
  rfl

theorem chunks16_blocks : ∀ (l : List Nat), l.length % 16 = 0 → BytesLt l →
    ∀ c ∈ chunks16 l, c.length = 16 ∧ BytesLt c
  | [], _, _, c, hc => by rw [chunks16_nil] at hc; simp at hc
  | [b0], hm, _, c, hc => by simp at hm
  | [b0, b1], hm, _, c, hc => by simp at hm
  | [b0, b1, b2], hm, _, c, hc => by simp at hm
  | [b0, b1, b2, b3], hm, _, c, hc => by simp at hm
  | [b0, b1, b2, b3, b4], hm, _, c, hc => by simp at hm
  | [b0, b1, b2, b3, b4, b5], hm, _, c, hc => by simp at hm
  | [b0, b1, b2, b3, b4, b5, b6], hm, _, c, hc => by simp at hm
  | [b0, b1, b2, b3, b4, b5, b6, b7], hm, _, c, hc => by simp at hm
  | [b0, b1, b2, b3, b4, b5, b6, b7, b8], hm, _, c, hc => by simp at hm
  | [b0, b1, b2, b3, b4, b5, b6, b7, b8, b9], hm, _, c, hc => by simp at hm
  | [b0, b1, b2, b3, b4, b5, b6, b7, b8, b9, b10], hm, _, c, hc => by simp at hm
  | [b0, b1, b2, b3, b4, b5, b6, b7, b8, b9, b10, b11], hm, _, c, hc => by simp at hm
  | [b0, b1, b2, b3, b4, b5, b6, b7, b8, b9, b10, b11, b12], hm, _, c, hc => by simp at hm
  | [b0, b1, b2, b3, b4, b5, b6, b7, b8, b9, b10, b11, b12, b13], hm, _, c, hc => by simp at hm
  | [b0, b1, b2, b3, b4, b5, b6, b7, b8, b9, b10, b11, b12, b13, b14], hm, _, c, hc => by simp at hm
  | b0 :: b1 :: b2 :: b3 :: b4 :: b5 :: b6 :: b7 :: b8 :: b9 :: b10 :: b11 :: b12 :: b13 :: b14 :: b15 :: rest, hm, hb, c, hc => by
    rw [chunks16_cons16] at hc
    rcases List.mem_cons.mp hc with rfl | hc
    · refine ⟨rfl, ?_⟩
      intro x hx
      apply hb
      simp only [List.mem_cons] at hx ⊢
      tauto
    · refine chunks16_blocks rest ?_ ?_ c hc
      · simp only [List.length_cons] at hm
        omega
      · intro x hx
        apply hb
        simp [hx]

theorem chunks16_flatten : ∀ (bs : List (List Nat)), (∀ b ∈ bs, b.length = 16) →
    chunks16 bs.flatten = bs
  | [], _ => rfl
  | b :: bs, h => by
    obtain ⟨b0, b1, b2, b3, b4, b5, b6, b7, b8, b9, b10, b11, b12, b13, b14, b15, rfl⟩ :=
      exists_len16 b (h b (by simp))
    simp only [List.flatten_cons, List.cons_append, List.nil_append]
    rw [chunks16_cons16, chunks16_flatten bs (fun x hx => h x (by simp [hx]))]

theorem flatten_blocks_length : ∀ (bs : List (List Nat)), (∀ b ∈ bs, b.length = 16) →
    bs.flatten.length = 16 * bs.length
  | [], _ => rfl
  | b :: bs, h => by
    simp only [List.flatten_cons, List.length_append, List.length_cons,
      flatten_blocks_length bs (fun x hx => h x (by simp [hx])), h b (by simp)]
    ring

theorem bytesLt_flatten : ∀ (bs : List (List Nat)), (∀ b ∈ bs, BytesLt b) →
    BytesLt bs.flatten
  | [], _ => bytesLt_nil
  | b :: bs, h => by
    simp only [List.flatten_cons]
    exact bytesLt_append (h b (by simp)) (bytesLt_flatten bs (fun x hx => h x (by simp [hx])))

set_option maxHeartbeats 1000000

theorem cbcEncBlocks_blocks (key : List Nat) (hk : key.length = 16) (hkb : BytesLt key) :
    ∀ (bs : List (List Nat)) (iv : List Nat), iv.length = 16 → BytesLt iv →
    (∀ b ∈ bs, b.length = 16 ∧ BytesLt b) →
    ∀ c ∈ cbcEncBlocks key iv bs, c.length = 16 ∧ BytesLt c := by
  intro bs
  induction bs with
  | nil =>
    intro iv _ _ _ c hc
    rw [cbcEncBlocks_nil] at hc
    simp at hc
  | cons b bs ih =>
    intro iv hiv hivb hbs
    obtain ⟨hb16, hbb⟩ := hbs b (by simp)
    have hzl : (zipXor b iv).length = 16 := by rw [zipXor_length, hb16, hiv]; rfl
    have hz : BytesLt (zipXor b iv) := bytesLt_zipXor _ _ hbb hivb
    obtain ⟨hc16, hcb⟩ := encryptBlock_block key _ hk hkb hzl hz
    rw [cbcEncBlocks_cons]
    refine List.forall_mem_cons.mpr ⟨⟨hc16, hcb⟩, ?_⟩
    exact ih _ hc16 hcb (fun x hx => hbs x (by simp [hx]))

theorem cbcDecBlocks_cbcEncBlocks (key : List Nat) (hk : key.length = 16) (hkb : BytesLt key) :
    ∀ (bs : List (List Nat)) (iv : List Nat), iv.length = 16 → BytesLt iv →
    (∀ b ∈ bs, b.length = 16 ∧ BytesLt b) →
    cbcDecBlocks key iv (cbcEncBlocks key iv bs) = bs
  | [], _, _, _, _ => rfl
  | b :: bs, iv, hiv, hivb, hbs => by
    obtain ⟨hb16, hbb⟩ := hbs b (by simp)
    have hzl : (zipXor b iv).length = 16 := by rw [zipXor_length, hb16, hiv]; rfl
    have hz : BytesLt (zipXor b iv) := bytesLt_zipXor _ _ hbb hivb
    obtain ⟨hc16, hcb⟩ := encryptBlock_block key _ hk hkb hzl hz
    rw [cbcEncBlocks_cons, cbcDecBlocks_cons]
    refine congrArg₂ _ ?_
      (cbcDecBlocks_cbcEncBlocks key hk hkb bs _ hc16 hcb (fun x hx => hbs x (by simp [hx])))
    rw [decryptBlock_encryptBlock key _ hk hkb hzl hz]
    exact zipXor_self_cancel b iv (by omega)

/-- The CBC round trip at the level of the driver's crypto wrappers:
decrypting with the same IV recovers a whole-block plaintext. -/
theorem aesCbcDecryptE_aesCbcEncrypt (data iv key : List Nat)
    (hd : data.length % 16 = 0) (hdb : BytesLt data)
    (hiv : iv.length = 16) (hivb : BytesLt iv)
    (hk : key.length = 16) (hkb : BytesLt key) :
    aesCbcDecryptE (aesCbcEncrypt data iv key) iv key = .ok data := by
  have htake : data.take (16 * (data.length / 16)) = data := by
    have : 16 * (data.length / 16) = data.length := by omega
    rw [this, List.take_length]
  have hblocks := chunks16_blocks data hd hdb
  have hebl := cbcEncBlocks_blocks key hk hkb (chunks16 data) iv hiv hivb hblocks
  have henc : aesCbcEncrypt data iv key = (cbcEncBlocks key iv (chunks16 data)).flatten := by
    rw [aesCbcEncrypt, htake]
  have hlen : (cbcEncBlocks key iv (chunks16 data)).flatten.length % 16 = 0 := by
    rw [flatten_blocks_length _ (fun b hb => (hebl b hb).1)]
    omega
  rw [henc, aesCbcDecryptE, if_pos ⟨hk, hiv, hlen⟩]
  rw [cbcDecryptRaw, chunks16_flatten _ (fun b hb => (hebl b hb).1)]
  rw [cbcDecBlocks_cbcEncBlocks key hk hkb (chunks16 data) iv hiv hivb hblocks]
  rw [flatten_chunks16]

theorem aesEcbEncryptE_ok (data key : List Nat) (hd : data.length = 16)
    (hk : key.length = 16) :
    aesEcbEncryptE data key = .ok (encryptBlock key data) := by
  rw [aesEcbEncryptE, if_pos hk]
  have h16 : 16 * (data.length / 16) = data.length := by omega
  rw [h16, List.take_length, chunks16_single data hd]
  simp

/-! ## Padding lemmas -/

theorem padIso_length (m : List Nat) :
    (padIso m).length = m.length + (16 - m.length % 16) := by
  simp only [padIso]
  split
  · simp only [List.length_append, List.length_cons, List.length_nil]
    omega
  · simp only [List.length_append, List.length_cons, List.length_nil, zeros,
      List.length_replicate]
    omega

theorem padIso_length_mod (m : List Nat) : (padIso m).length % 16 = 0 := by
  rw [padIso_length]
  omega

theorem padIso_length_gt (m : List Nat) : m.length < (padIso m).length := by
  rw [padIso_length]
  omega

theorem padIso_bytesLt (m : List Nat) (h : BytesLt m) : BytesLt (padIso m) := by
  have h80 : BytesLt [0x80] := bytesLt_cons (by norm_num) bytesLt_nil
  simp only [padIso]
  split
  · exact bytesLt_append h h80
  · exact bytesLt_append (bytesLt_append h h80) (bytesLt_zeros _)

theorem padIso_getD (m : List Nat) : (padIso m).getD m.length 0 = 0x80 := by
  simp only [padIso]
  split
  · rw [List.getD_append_right _ _ _ _ (Nat.le_refl _)]
    simp
  · rw [List.getD_append _ _ _ _ (by simp), List.getD_append_right _ _ _ _ (Nat.le_refl _)]
    simp

theorem padIso_drop (m : List Nat) :
    (padIso m).drop (m.length + 1) = zeros (16 - m.length % 16 - 1) := by
  simp only [padIso]
  split
  · rename_i h
    rw [List.drop_eq_nil_of_le (by simp), h]
    rfl
  · have hlen : (m ++ [0x80]).length = m.length + 1 := by simp
    rw [← hlen, List.drop_left]

/-! ## CRC-32 lemmas -/

theorem shiftRight_xor (x y n : Nat) : (x ^^^ y) >>> n = x >>> n ^^^ y >>> n := by
  apply Nat.eq_of_testBit_eq
  intro i
  simp [Nat.testBit_shiftRight, Nat.testBit_xor]

theorem crcBitStep_xor (x y : Nat) : crcBitStep (x ^^^ y) = crcBitStep x ^^^ crcBitStep y := by
  unfold crcBitStep
  rw [Nat.and_xor_distrib_right]
  have hx : x &&& 1 = 0 ∨ x &&& 1 = 1 := by rw [Nat.and_one_is_mod]; omega
  have hy : y &&& 1 = 0 ∨ y &&& 1 = 1 := by rw [Nat.and_one_is_mod]; omega
  rcases hx with hx | hx <;> rcases hy with hy | hy <;>
    simp [hx, hy, shiftRight_xor, Nat.xor_assoc, Nat.xor_comm, xor_left_comm,
      Nat.xor_cancel_left, Nat.xor_self, Nat.xor_zero]

theorem crcSteps_xor (k x y : Nat) :
    crcBitStep^[k] (x ^^^ y) = crcBitStep^[k] x ^^^ crcBitStep^[k] y := by
  induction k generalizing x y with
  | zero => rfl
  | succ n ih => rw [Function.iterate_succ_apply, Function.iterate_succ_apply,
      Function.iterate_succ_apply, crcBitStep_xor, ih]

theorem crcBitStep_shiftLeft (h n : Nat) : crcBitStep (h <<< (n + 1)) = h <<< n := by
  unfold crcBitStep
  have heven : h <<< (n + 1) &&& 1 = 0 := by
    rw [Nat.and_one_is_mod, Nat.shiftLeft_eq, Nat.pow_succ, ← Nat.mul_assoc, Nat.mul_mod_left]
  rw [heven]
  simp only [if_neg (by omega : ¬(0 = 1))]
  rw [Nat.shiftLeft_eq, Nat.shiftLeft_eq, Nat.shiftRight_one, Nat.pow_succ, ← Nat.mul_assoc,
    Nat.mul_div_cancel _ (by norm_num)]

theorem crcSteps_shiftLeft : ∀ (k h : Nat), crcBitStep^[k] (h <<< k) = h
  | 0, h => by simp
  | k + 1, h => by
    rw [Function.iterate_succ_apply, crcBitStep_shiftLeft, crcSteps_shiftLeft k h]

theorem decompose_lo_hi (x : Nat) : x % 256 ^^^ (x >>> 8) <<< 8 = x := by
  apply Nat.eq_of_testBit_eq
  intro i
  have h256 : (256 : Nat) = 2 ^ 8 := by norm_num
  rw [Nat.testBit_xor, h256, Nat.testBit_mod_two_pow, Nat.testBit_shiftLeft,
    Nat.testBit_shiftRight]
  rcases Nat.lt_or_ge i 8 with h | h
  · simp [h, Nat.not_le.mpr h]
  · simp [Nat.not_lt.mpr h, h, Nat.add_sub_cancel' h]

/-- The table-driven CRC byte step agrees with eight bit-by-bit steps. -/
theorem crcSteps8_eq_table (x : Nat) :
    crcBitStep^[8] x = (x >>> 8) ^^^ crcTableEntry (x % 256) := by
  conv_lhs => rw [← decompose_lo_hi x]
  rw [crcSteps_xor, crcSteps_shiftLeft 8 (x >>> 8)]
  rw [crcTableEntry, Nat.xor_comm]

theorem crc32Loop_eq_ieee : ∀ (data : List Nat) (crc : Nat), BytesLt data →
    crc32Loop data crc = crc32IeeeLe.crc32IeeeLoop data crc
  | [], _, _ => rfl
  | b :: rest, crc, hb => by
    have hblt : b < 256 := hb b (by simp)
    rw [crc32Loop, crc32IeeeLe.crc32IeeeLoop, crcSteps8_eq_table (crc ^^^ b)]
    have hhi : (crc ^^^ b) >>> 8 = crc >>> 8 := by
      rw [shiftRight_xor]
      have : b >>> 8 = 0 := by
        rw [Nat.shiftRight_eq_div_pow]
        omega
      rw [this, Nat.xor_zero]
    rw [hhi]
    exact crc32Loop_eq_ieee rest _ (fun x hx => hb x (by simp [hx]))

/-! ## Claim theorems -/

/-- C8: ISO/IEC 7816-4 method-2 padding as implemented in `encryptPayload`:
the padded length is a positive multiple of 16 and strictly greater than
`|m|` (so a full 16-byte block is appended when `|m|` is already a multiple
of 16), the byte at index `|m|` is `0x80`, and every byte after it is
`0x00` (the tail from index `|m| + 1` is exactly the remaining zero fill). -/
theorem c8_padding_law (m : List Nat) :
    (padIso m).length % 16 = 0 ∧ 0 < (padIso m).length ∧ m.length < (padIso m).length ∧
      (padIso m).getD m.length 0 = 0x80 ∧
      (padIso m).drop (m.length + 1) = zeros (16 - m.length % 16 - 1) :=
  ⟨padIso_length_mod m, by have := padIso_length_gt m; omega, padIso_length_gt m,
    padIso_getD m, padIso_drop m⟩

/-- C9 counterexample: the `crc32` of sixteen `0x00` bytes is
`AA B4 44 13`, not the `39 A3 24 9A` stated by the claim. -/
theorem c9_counterexample :
    crc32 (zeros 16) = [0xaa, 0xb4, 0x44, 0x13] ∧
      crc32 (zeros 16) ≠ [0x39, 0xa3, 0x24, 0x9a] := by decide

/-- C9 (amended): for every byte sequence, the ChangeKey `crc32` equals the
bytewise complement of the little-endian encoding of the standard IEEE
802.3 CRC-32 (table-driven and bit-by-bit forms agree); the concrete value
for sixteen zero bytes is `AA B4 44 13`. -/
theorem c9_crc32_complement_law (data : List Nat) (h : BytesLt data) :
    crc32 data = (crc32IeeeLe data).map (fun b => 0xff ^^^ b) := by
  rw [crc32, crc32IeeeLe, crc32Loop_eq_ieee data 0xffffffff h]

theorem c9_crc32_complement_law_witness :
    BytesLt [0x31, 0x32, 0x33] ∧
      crc32 [0x31, 0x32, 0x33] = (crc32IeeeLe [0x31, 0x32, 0x33]).map (fun b => 0xff ^^^ b) :=
  ⟨by decide, c9_crc32_complement_law [0x31, 0x32, 0x33] (by decide)⟩

/-- C2: the source's `incrementCommandCounter` is not a 16-bit
little-endian increment.  From a fresh session counter `00 00`, 256
successful increments leave `FF 01` (`0x01FF`) where the claim requires
`00 01` (`256` little-endian): once the low byte reaches `0xFF` it is
never reset, so the 256th increment jumps the counter value by 256. -/
theorem c2_counter_not_le16 :
    (incrementCommandCounter^[256] authedTestState).commandCounter = some [0xff, 0x01] ∧
      ([0xff, 0x01] : List Nat) ≠ [0x00, 0x01] := by decide

/-- C3: a failed `authenticateEv2First` does NOT clear the session.
Starting from an authenticated state, when the card answers part one with
SW `91 67` the method rethrows the status-word error and returns with all
previous session fields (keys, TI, CC, slot) still set — contradicting
the claim that the state ends with every Session field absent. -/
theorem c3_failed_auth_keeps_session :
    (authenticateEv2First authedTestState 0 (zeros 16) (zeros 16) [some [0x91, 0x67]]).1 =
        .error (.statusWord [0x90, 0x71] [0x91, 0x67]) ∧
      (authenticateEv2First authedTestState 0 (zeros 16) (zeros 16) [some [0x91, 0x67]]).2 =
        authedTestState ∧
      authedTestState.sessionKeyMac ≠ none ∧
      authedTestState.isAuthenticated = true := by decide

/-- C4 counterexample: the wrapper checks only the final byte of the
response, so in plain mode a response with status word `0x6700` (SW1 =
`0x67`, SW2 = `0x00`) is accepted even though it is neither `0x9100` nor
`0x91AF`, where the claim requires a StatusWord error. -/
theorem c4_counterexample :
    (sendCommand initialState ⟨[0x00, 0xa4, 0x00, 0x0c], [], [0xe1, 0x10], .plain, true⟩
        (some [0x67, 0x00])).result = .ok [0x67, 0x00] ∧
      ([0x67, 0x00] : List Nat) ≠ [0x91, 0x00] ∧
      ([0x67, 0x00] : List Nat) ≠ [0x91, 0xaf] := by decide

/-- C7: MAC truncation: the wire MAC is exactly the odd-indexed bytes
`[T[1], T[3], T[5], T[7], T[9], T[11], T[13], T[15]]` of the 16-byte CMAC
output `T`, and `generateMac` applies exactly this truncation to the CMAC
of `commandCode || CC || TI || commandHeader || commandData`. -/
theorem c7_mac_truncation
    (t0 t1 t2 t3 t4 t5 t6 t7 t8 t9 t10 t11 t12 t13 t14 t15 : Nat) :
    filterOddIdx [t0, t1, t2, t3, t4, t5, t6, t7, t8, t9, t10, t11, t12, t13, t14, t15] =
        [t1, t3, t5, t7, t9, t11, t13, t15] ∧
      ∀ (commandCode commandHeader commandData cc ti kmac : List Nat),
        generateMacBytes commandCode commandHeader commandData cc ti kmac =
          filterOddIdx (aesCmac kmac (commandCode ++ cc ++ ti ++ commandHeader ++ commandData)) :=
  ⟨by simp [filterOddIdx, List.enum, List.enumFrom, List.filter], fun _ _ _ _ _ _ => rfl⟩

/-- C6: session-key derivation: for all 16-byte `RandA` and `RandB` and any
key, `generateEncKey` is AES-CMAC over
`SV1 = A5 5A 00 01 00 80 || RandA[0..2] || (RandA[2..8] XOR RandB[0..6]) ||
RandB[6..16] || RandA[8..16]` and `generateMacKey` is AES-CMAC over `SV2`,
identical except for the leading `5A A5`; both SVs are 32 bytes.
Determinism is immediate: both derivations are pure functions of
`(RandA, RandB, K)`. -/
theorem c6_session_key_derivation
    (a0 a1 a2 a3 a4 a5 a6 a7 a8 a9 a10 a11 a12 a13 a14 a15 : Nat)
    (b0 b1 b2 b3 b4 b5 b6 b7 b8 b9 b10 b11 b12 b13 b14 b15 : Nat) (key : List Nat) :
    generateEncKey [a0, a1, a2, a3, a4, a5, a6, a7, a8, a9, a10, a11, a12, a13, a14, a15]
        [b0, b1, b2, b3, b4, b5, b6, b7, b8, b9, b10, b11, b12, b13, b14, b15] key =
      aesCmac key [0xa5, 0x5a, 0x00, 0x01, 0x00, 0x80, a0, a1,
        a2 ^^^ b0, a3 ^^^ b1, a4 ^^^ b2, a5 ^^^ b3, a6 ^^^ b4, a7 ^^^ b5,
        b6, b7, b8, b9, b10, b11, b12, b13, b14, b15,
        a8, a9, a10, a11, a12, a13, a14, a15] ∧
    generateMacKey [a0, a1, a2, a3, a4, a5, a6, a7, a8, a9, a10, a11, a12, a13, a14, a15]
        [b0, b1, b2, b3, b4, b5, b6, b7, b8, b9, b10, b11, b12, b13, b14, b15] key =
      aesCmac key [0x5a, 0xa5, 0x00, 0x01, 0x00, 0x80, a0, a1,
        a2 ^^^ b0, a3 ^^^ b1, a4 ^^^ b2, a5 ^^^ b3, a6 ^^^ b4, a7 ^^^ b5,
        b6, b7, b8, b9, b10, b11, b12, b13, b14, b15,
        a8, a9, a10, a11, a12, a13, a14, a15] ∧
    ([0xa5, 0x5a, 0x00, 0x01, 0x00, 0x80, a0, a1,
        a2 ^^^ b0, a3 ^^^ b1, a4 ^^^ b2, a5 ^^^ b3, a6 ^^^ b4, a7 ^^^ b5,
        b6, b7, b8, b9, b10, b11, b12, b13, b14, b15,
        a8, a9, a10, a11, a12, a13, a14, a15] : List Nat).length = 32 :=
  ⟨rfl, rfl, rfl⟩

/-- C10: `writeData('ndef', data, offset)` with `data.length ≤ 248` and
`248 < offset + data.length ≤ 256` passes both of the method's explicit
range checks (`data.length > 248` and `payloadLength > 256`) but then
computes a negative zero-fill size `248 - payloadLength` and the
`Buffer.alloc` throws; the `commandData` buffer is built before the first
transport interaction (`getFileSettings`), so no APDU is sent.  The
transport is reachable exactly when `offset + data.length ≤ 248`. -/
theorem c10_writeData_ndef_gap :
    (∀ (data : List Nat) (offset : Nat), data.length ≤ 248 →
      248 < offset + data.length → offset + data.length ≤ 256 →
      writeDataPrep .ndef data offset = .error .allocNegative) ∧
    (∀ (data : List Nat) (offset : Nat) (cd : List Nat),
      writeDataPrep .ndef data offset = .ok cd → offset + data.length ≤ 248) := by
  constructor
  · intro data offset h1 h2 h3
    simp only [writeDataPrep]
    rw [if_neg (by omega), if_neg (by omega), bufferAllocE,
      if_pos (by omega : (248 : Int) - (offset + data.length : Nat) < 0)]
    rfl
  · intro data offset cd h
    by_contra hc
    simp only [writeDataPrep] at h
    split at h
    · exact absurd h (by simp)
    · split at h
      · exact absurd h (by simp)
      · rw [bufferAllocE, if_pos (by omega : (248 : Int) - (offset + data.length : Nat) < 0)] at h
        simp [Except.map] at h

theorem c10_writeData_ndef_gap_witness :
    ((List.replicate 200 0).length ≤ 248 ∧ 248 < 56 + (List.replicate 200 0).length ∧
      56 + (List.replicate 200 0).length ≤ 256 ∧
      writeDataPrep .ndef (List.replicate 200 0) 56 = .error .allocNegative) ∧
    (writeDataPrep .ndef (List.replicate 100 0) 56 = .ok (List.replicate 100 0 ++ zeros 92) →
      56 + (List.replicate 100 0).length ≤ 248) :=
  ⟨⟨by decide, by decide, by decide,
      c10_writeData_ndef_gap.1 (List.replicate 200 0) 56 (by decide) (by decide) (by decide)⟩,
    fun h => c10_writeData_ndef_gap.2 (List.replicate 100 0) 56 _ h⟩

theorem except_bind_error {ε α β : Type _} (e : ε) (f : α → Except ε β) :
    (Except.error e >>= f) = Except.error e := rfl

theorem except_bind_ok {ε α β : Type _} (a : α) (f : α → Except ε β) :
    (Except.ok a >>= f) = f a := rfl

theorem except_map_error {ε α β : Type _} (g : α → β) (e : ε) :
    (g <$> (Except.error e : Except ε α)) = Except.error e := rfl

theorem except_map_ok {ε α β : Type _} (g : α → β) (a : α) :
    (g <$> (Except.ok a : Except ε α)) = (Except.ok (g a) : Except ε β) := rfl

theorem verifyMacE_not_statusWord (r cc ti kmac cmdb swb : List Nat) :
    verifyMacE r cc ti kmac ≠ .error (.statusWord cmdb swb) := by
  simp only [verifyMacE]
  split <;> simp

theorem aesEcbEncryptE_error_eq (d k : List Nat) (e : NtagFailure)
    (h : aesEcbEncryptE d k = .error e) : e = .cryptoError := by
  unfold aesEcbEncryptE at h
  split at h <;> simp_all

theorem aesCbcDecryptE_error_eq (d iv k : List Nat) (e : NtagFailure)
    (h : aesCbcDecryptE d iv k = .error e) : e = .cryptoError := by
  unfold aesCbcDecryptE at h
  split at h <;> simp_all

theorem decryptPayloadE_shape (r ti cc kenc : List Nat) :
    decryptPayloadE r ti cc kenc = .error .cryptoError ∨
      ∃ d, decryptPayloadE r ti cc kenc = .ok d := by
  rw [decryptPayloadE]
  rcases h1 : aesEcbEncryptE ([0x5a, 0xa5] ++ ti ++ cc ++ zeros 8) kenc with e | iv
  · left
    have he := aesEcbEncryptE_error_eq _ _ _ h1
    subst he
    rw [except_bind_error]
  · rcases h2 : aesCbcDecryptE (r.take (r.length - 10)) iv kenc with e2 | d
    · left
      have he := aesCbcDecryptE_error_eq _ _ _ _ h2
      subst he
      rw [except_bind_ok, h2, except_bind_error]
    · right
      exact ⟨_, by rw [except_bind_ok, h2, except_bind_ok]; rfl⟩

theorem fullUnwrap_not_statusWord (r ti cc kenc kmac cmdb swb : List Nat) :
    (decryptPayloadE r ti cc kenc).bind (fun d => verifyMacE d cc ti kmac) ≠
      .error (.statusWord cmdb swb) := by
  rcases decryptPayloadE_shape r ti cc kenc with h | ⟨d, h⟩
  · rw [h]
    simp [Except.bind]
  · rw [h]
    show verifyMacE d cc ti kmac ≠ _
    exact verifyMacE_not_statusWord _ _ _ _ _ _

/-- C4 (amended): the wrapper's status check examines only the FINAL byte
(SW2) of the response: in plain mode a response is accepted exactly when
its last byte is `0x00` or `0xAF`; in mac and full modes the StatusWord
error is raised exactly when the last byte differs from `0x00` (so a
status word such as `0x6700` passes).  The error carries the first two
header bytes and the last two response bytes, and is raised before the
command counter moves (the state is unchanged). -/
theorem c4_status_word_check (s : NtagState) (hdr ch cd : List Nat) (le : Bool)
    (r : List Nat) (hauth : s.isAuthenticated = true) :
    ((sendCommand s ⟨hdr, ch, cd, .plain, le⟩ (some r)).result = .ok r ↔
      (lastByte r = some 0x00 ∨ lastByte r = some 0xaf)) ∧
    ((sendCommand s ⟨hdr, ch, cd, .plain, le⟩ (some r)).result =
        .error (.statusWord (hdr.take 2) (lastTwo r)) ↔
      ¬(lastByte r = some 0x00 ∨ lastByte r = some 0xaf)) ∧
    (¬(lastByte r = some 0x00 ∨ lastByte r = some 0xaf) →
      (sendCommand s ⟨hdr, ch, cd, .plain, le⟩ (some r)).state = s) ∧
    ((sendCommand s ⟨hdr, ch, cd, .mac, le⟩ (some r)).result =
        .error (.statusWord (hdr.take 2) (lastTwo r)) ↔ lastByte r ≠ some 0x00) ∧
    (lastByte r ≠ some 0x00 → (sendCommand s ⟨hdr, ch, cd, .mac, le⟩ (some r)).state = s) ∧
    (∀ enc, encryptPayloadE cd (s.transactionId.getD []) (s.commandCounter.getD [])
        (s.sessionKeyEncryption.getD []) = .ok enc →
      (((sendCommand s ⟨hdr, ch, cd, .full, le⟩ (some r)).result =
          .error (.statusWord (hdr.take 2) (lastTwo r)) ↔ lastByte r ≠ some 0x00) ∧
        (lastByte r ≠ some 0x00 →
          (sendCommand s ⟨hdr, ch, cd, .full, le⟩ (some r)).state = s))) := by
  refine ⟨?_, ?_, ?_, ?_, ?_, ?_⟩
  · by_cases hc : lastByte r ≠ some 0x00 ∧ lastByte r ≠ some 0xaf <;>
      simp [sendCommand, hc] <;> tauto
  · by_cases hc : lastByte r ≠ some 0x00 ∧ lastByte r ≠ some 0xaf <;>
      simp [sendCommand, hc] <;> tauto
  · intro hc
    have hc' : lastByte r ≠ some 0x00 ∧ lastByte r ≠ some 0xaf := by tauto
    simp [sendCommand, hc']
  · by_cases hc : lastByte r ≠ some 0x00
    · simp [sendCommand, hauth, hc]
    · simp only [Decidable.not_not] at hc
      simp [sendCommand, hauth, hc]
      exact verifyMacE_not_statusWord _ _ _ _ _ _
  · intro hc
    simp [sendCommand, hauth, hc]
  · intro enc henc
    constructor
    · by_cases hc : lastByte r ≠ some 0x00
      · simp [sendCommand, hauth, henc, hc]
      · simp only [Decidable.not_not] at hc
        simp [sendCommand, hauth, henc, hc]
        exact fullUnwrap_not_statusWord _ _ _ _ _ _ _
    · intro hc
      simp [sendCommand, hauth, henc, hc]

theorem c4_status_word_check_witness :
    authedTestState.isAuthenticated = true ∧
      ((sendCommand authedTestState ⟨[0x90, 0xf5, 0x00, 0x00], [0x02], [], .plain, true⟩
          (some [0x91, 0x67])).result =
        .error (.statusWord (([0x90, 0xf5, 0x00, 0x00] : List Nat).take 2)
          (lastTwo [0x91, 0x67])) ↔
        ¬(lastByte [0x91, 0x67] = some 0x00 ∨ lastByte [0x91, 0x67] = some 0xaf)) :=
  ⟨rfl, (c4_status_word_check authedTestState [0x90, 0xf5, 0x00, 0x00] [0x02] [] true
    [0x91, 0x67] rfl).2.1⟩

/-- C5 counterexample: decrypting the full-mode command encryption of the
empty message under the RESPONSE-side IV (derived from `5A A5 || TI || CC`)
does not yield `pad(m)`: the request IV (`A5 5A …`) and response IV differ,
so the first plaintext block comes back garbled. -/
theorem c5_counterexample :
    (encryptPayloadE [] (zeros 4) (zeros 2) (zeros 16)).bind (fun enc =>
      (aesEcbEncryptE ([0x5a, 0xa5] ++ zeros 4 ++ zeros 2 ++ zeros 8) (zeros 16)).bind
        (fun iv => aesCbcDecryptE enc iv (zeros 16))) ≠ .ok (padIso []) := by decide

/-- C5 (amended): the full-mode wrap is symmetric up to padding with the
REQUEST-side IV: for every message `m` and every 16-byte `K_enc`, 4-byte
`TI` and 2-byte `CC`, the request IV is the single-block ECB encryption of
`A5 5A || TI || CC || 00*8`, the command encryption succeeds, and
CBC-decrypting the ciphertext under that same IV yields exactly `pad(m)`. -/
theorem c5_full_mode_roundtrip (m key ti cc : List Nat)
    (hm : BytesLt m) (hk : key.length = 16) (hkb : BytesLt key)
    (hti : ti.length = 4) (htib : BytesLt ti) (hcc : cc.length = 2) (hccb : BytesLt cc) :
    ∃ iv, aesEcbEncryptE ([0xa5, 0x5a] ++ ti ++ cc ++ zeros 8) key = .ok iv ∧
      encryptPayloadE m ti cc key = .ok (aesCbcEncrypt (padIso m) iv key) ∧
      aesCbcDecryptE (aesCbcEncrypt (padIso m) iv key) iv key = .ok (padIso m) := by
  have hivdata_len : ([0xa5, 0x5a] ++ ti ++ cc ++ zeros 8).length = 16 := by
    simp [zeros, hti, hcc]
  have hivdata_b : BytesLt ([0xa5, 0x5a] ++ ti ++ cc ++ zeros 8) := by
    refine bytesLt_append (bytesLt_append (bytesLt_append ?_ htib) hccb) (bytesLt_zeros 8)
    exact bytesLt_cons (by norm_num) (bytesLt_cons (by norm_num) bytesLt_nil)
  have hecb := aesEcbEncryptE_ok _ key hivdata_len hk
  obtain ⟨hiv16, hivb⟩ := encryptBlock_block key _ hk hkb hivdata_len hivdata_b
  refine ⟨encryptBlock key ([0xa5, 0x5a] ++ ti ++ cc ++ zeros 8), hecb, ?_, ?_⟩
  · rw [encryptPayloadE, hecb, except_bind_ok]
    rfl
  · exact aesCbcDecryptE_aesCbcEncrypt (padIso m) _ key (padIso_length_mod m)
      (padIso_bytesLt m hm) hiv16 hivb hk hkb

theorem c5_full_mode_roundtrip_witness :
    (BytesLt ([] : List Nat) ∧ (zeros 16).length = 16 ∧ BytesLt (zeros 16) ∧
      (zeros 4).length = 4 ∧ BytesLt (zeros 4) ∧ (zeros 2).length = 2 ∧ BytesLt (zeros 2)) ∧
    (∃ iv, aesEcbEncryptE ([0xa5, 0x5a] ++ zeros 4 ++ zeros 2 ++ zeros 8) (zeros 16) = .ok iv ∧
      encryptPayloadE [] (zeros 4) (zeros 2) (zeros 16) =
        .ok (aesCbcEncrypt (padIso []) iv (zeros 16)) ∧
      aesCbcDecryptE (aesCbcEncrypt (padIso []) iv (zeros 16)) iv (zeros 16) =
        .ok (padIso [])) :=
  ⟨⟨by decide, by decide, by decide, by decide, by decide, by decide, by decide⟩,
    c5_full_mode_roundtrip [] (zeros 16) (zeros 4) (zeros 2) (by decide) (by decide)
      (by decide) (by decide) (by decide) (by decide) (by decide)⟩

/-- C1: on a response-MAC mismatch the wrapper throws the
mac-verification error but does NOT tear the session down.  With an
authenticated session and a MAC-mode command whose response carries SW
`91 00` and a wrong 8-byte MAC (all zeros), `sendCommand` returns the
mac-mismatch error yet leaves `isAuthenticated` and all session fields
set (the counter even advanced), and a subsequent `getCardUid` on the
resulting state does not fail with NotAuthenticated — it builds a MAC
and hands an APDU to the transport, contradicting the claim. -/
theorem c1_mac_mismatch_no_teardown :
    (sendCommand authedTestState ⟨[0x90, 0xf5, 0x00, 0x00], [0x02], [], .mac, true⟩
        (some [0, 0, 0, 0, 0, 0, 0, 0, 0x91, 0x00])).result = .error .macMismatch ∧
    (sendCommand authedTestState ⟨[0x90, 0xf5, 0x00, 0x00], [0x02], [], .mac, true⟩
        (some [0, 0, 0, 0, 0, 0, 0, 0, 0x91, 0x00])).state.isAuthenticated = true ∧
    (sendCommand authedTestState ⟨[0x90, 0xf5, 0x00, 0x00], [0x02], [], .mac, true⟩
        (some [0, 0, 0, 0, 0, 0, 0, 0, 0x91, 0x00])).state.sessionKeyMac = some (zeros 16) ∧
    (sendCommand authedTestState ⟨[0x90, 0xf5, 0x00, 0x00], [0x02], [], .mac, true⟩
        (some [0, 0, 0, 0, 0, 0, 0, 0, 0x91, 0x00])).state.sessionKeyEncryption =
      some (zeros 16) ∧
    (sendCommand authedTestState ⟨[0x90, 0xf5, 0x00, 0x00], [0x02], [], .mac, true⟩
        (some [0, 0, 0, 0, 0, 0, 0, 0, 0x91, 0x00])).state.transactionId =
      some [0x11, 0x22, 0x33, 0x44] ∧
    (getCardUid
        (sendCommand authedTestState ⟨[0x90, 0xf5, 0x00, 0x00], [0x02], [], .mac, true⟩
          (some [0, 0, 0, 0, 0, 0, 0, 0, 0x91, 0x00])).state
        (some [0, 0, 0, 0, 0, 0, 0, 0, 0x91, 0x00])).result ≠ .error .notAuthenticated ∧
    (getCardUid
        (sendCommand authedTestState ⟨[0x90, 0xf5, 0x00, 0x00], [0x02], [], .mac, true⟩
          (some [0, 0, 0, 0, 0, 0, 0, 0, 0x91, 0x00])).state
        (some [0, 0, 0, 0, 0, 0, 0, 0, 0x91, 0x00])).sent ≠ [] := by decide

/-- Validation of the AES-128 embedding against the FIPS-197 appendix C
example vector (encryption and decryption). -/
theorem aes128_fips197_vector :
    encryptBlock
        [0x00, 0x01, 0x02, 0x03, 0x04, 0x05, 0x06, 0x07,
          0x08, 0x09, 0x0a, 0x0b, 0x0c, 0x0d, 0x0e, 0x0f]
        [0x00, 0x11, 0x22, 0x33, 0x44, 0x55, 0x66, 0x77,
          0x88, 0x99, 0xaa, 0xbb, 0xcc, 0xdd, 0xee, 0xff] =
      [0x69, 0xc4, 0xe0, 0xd8, 0x6a, 0x7b, 0x04, 0x30,
        0xd8, 0xcd, 0xb7, 0x80, 0x70, 0xb4, 0xc5, 0x5a] ∧
    decryptBlock
        [0x00, 0x01, 0x02, 0x03, 0x04, 0x05, 0x06, 0x07,
          0x08, 0x09, 0x0a, 0x0b, 0x0c, 0x0d, 0x0e, 0x0f]
        [0x69, 0xc4, 0xe0, 0xd8, 0x6a, 0x7b, 0x04, 0x30,
          0xd8, 0xcd, 0xb7, 0x80, 0x70, 0xb4, 0xc5, 0x5a] =
      [0x00, 0x11, 0x22, 0x33, 0x44, 0x55, 0x66, 0x77,
        0x88, 0x99, 0xaa, 0xbb, 0xcc, 0xdd, 0xee, 0xff] := by decide

/-- Validation of the CMAC embedding against the RFC 4493 test vectors
(empty message and one-block message). -/
theorem aesCmac_rfc4493_vectors :
    aesCmac
        [0x2b, 0x7e, 0x15, 0x16, 0x28, 0xae, 0xd2, 0xa6,
          0xab, 0xf7, 0x15, 0x88, 0x09, 0xcf, 0x4f, 0x3c] [] =
      [0xbb, 0x1d, 0x69, 0x29, 0xe9, 0x59, 0x37, 0x28,
        0x7f, 0xa3, 0x7d, 0x12, 0x9b, 0x75, 0x67, 0x46] ∧
    aesCmac
        [0x2b, 0x7e, 0x15, 0x16, 0x28, 0xae, 0xd2, 0xa6,
          0xab, 0xf7, 0x15, 0x88, 0x09, 0xcf, 0x4f, 0x3c]
        [0x6b, 0xc1, 0xbe, 0xe2, 0x2e, 0x40, 0x9f, 0x96,
          0xe9, 0x3d, 0x7e, 0x11, 0x73, 0x93, 0x17, 0x2a] =
      [0x07, 0x0a, 0x16, 0xb4, 0x6b, 0x4d, 0x41, 0x44,
        0xf7, 0x9b, 0xdd, 0x9d, 0xd0, 0x4a, 0x28, 0x7c] := by decide

end Ntag424
